import Mathlib

/-!
Shallow embedding of the dayone-lunch-bot persistence layer
(`src/database/manager.py`), the multi-user charge command
(`src/bot/commands.py`, `lunch`) and the payment-handshake control
(`src/bot/views.py`, `PaymentView`), together with theorems settling the
frozen claims about them.

Modelling conventions:
* Postgres `NUMERIC` values and Python floats are modelled as `ℚ`; every
  concrete amount used below (55.0, 5.0, ...) is exactly representable, so
  no rounding behaviour is lost.
* Timestamps are modelled by a logical clock `DB.clock` that advances on
  every write of `CURRENT_TIMESTAMP`.
* Python `str.isdigit` agrees with `Char.isDigit` on ASCII input; all
  concrete strings used below are ASCII.
* A database method that raises rolls its transaction back, so a failing
  call leaves the store unchanged; each method is therefore one total
  state transformer (its commit is atomic by construction).
-/

set_option maxRecDepth 4000

namespace LunchBot

/-- The character filter used by `DatabaseManager._extract_numeric`
(`lambda x: x.isdigit() or x == '.'`). -/
def isPriceChar (c : Char) : Bool := c.isDigit || c == '.'

/-- The digit-and-dot filtered character list of a price string. -/
def filterNumeric (s : String) : List Char := s.data.filter isPriceChar

/-- Numeric value of one digit character. -/
def digitVal (c : Char) : Nat := c.toNat - '0'.toNat

/-- Base-10 value of a block of digit characters. -/
def parseDigits (l : List Char) : Nat := l.foldl (fun a c => 10 * a + digitVal c) 0

/-- Python `float` applied to a string made only of digits and dots: it
succeeds iff the string holds at least one digit and at most one dot, and
then denotes `intpart.fracpart` exactly. -/
def parseFloatNumeric (l : List Char) : Option ℚ :=
  if l.any Char.isDigit ∧ l.count '.' ≤ 1 then
    let ip := l.takeWhile (fun c => c != '.')
    let fp := (l.dropWhile (fun c => c != '.')).drop 1
    some ((parseDigits ip : ℚ) + (parseDigits fp : ℚ) / ((10 : ℚ) ^ fp.length))
  else none

/-- Embeds `DatabaseManager._extract_numeric`: keep digits and dots, parse as a
float; the `ValueError` branch is caught, logged, and `0.0` is returned. -/
def extractNumeric (s : String) : ℚ :=
  match parseFloatNumeric (filterNumeric s) with
  | some v => v
  | none => 0

/-- One row of the `users` table. -/
structure UserRow where
  user_id : Int
  username : Option String
  total_unpaid : ℚ
deriving DecidableEq

/-- One row of the `transactions` table. -/
structure TxnRow where
  transaction_id : Nat
  user_id : Int
  commented_count : Nat
  lunch_price : String
  total_price : ℚ
  transaction_image : Option String
  transaction_confirmed : Bool
  transaction_date : Nat
  paid : Bool
  ticket_message_id : Option Int
  description : Option String
deriving DecidableEq

/-- The relational store: both tables, the `SERIAL` transaction-id counter
and a logical clock for `CURRENT_TIMESTAMP`. -/
structure DB where
  users : List UserRow
  txns : List TxnRow
  nextId : Nat
  clock : Nat
deriving DecidableEq

/-- The store right after `create_tables` on a fresh database. -/
def emptyDB : DB := ⟨[], [], 1, 0⟩

/-- Reads `SELECT * FROM users WHERE user_id = %s` (first row). -/
def findUser (db : DB) (uid : Int) : Option UserRow :=
  db.users.find? (fun u => u.user_id == uid)

/-- Reads `SELECT * FROM transactions WHERE transaction_id = %s` (first row). -/
def findTxn (db : DB) (tid : Nat) : Option TxnRow :=
  db.txns.find? (fun t => t.transaction_id == tid)

/-- A user's stored `total_unpaid`, read as 0 when the row is absent. -/
def balanceOf (db : DB) (uid : Int) : ℚ :=
  ((findUser db uid).map (fun u => u.total_unpaid)).getD 0

/-- Row effect of `UPDATE users SET username = .. WHERE user_id = ..`. -/
def setNameRow (uid : Int) (un : String) (u : UserRow) : UserRow :=
  if u.user_id == uid then { u with username := some un } else u

/-- Row effect of `UPDATE users SET total_unpaid = total_unpaid + %s
WHERE user_id = %s`. -/
def addBalRow (uid : Int) (v : ℚ) (u : UserRow) : UserRow :=
  if u.user_id == uid then { u with total_unpaid := u.total_unpaid + v } else u

/-- Row effect of `UPDATE users SET total_unpaid = total_unpaid - %s
WHERE user_id = %s`. -/
def subBalRow (uid : Int) (v : ℚ) (u : UserRow) : UserRow :=
  if u.user_id == uid then { u with total_unpaid := u.total_unpaid - v } else u

/-- Row effect of `UPDATE users SET total_unpaid = 0 WHERE user_id = %s`. -/
def zeroBalRow (uid : Int) (u : UserRow) : UserRow :=
  if u.user_id == uid then { u with total_unpaid := 0 } else u

/-- Row effect of `UPDATE transactions SET transaction_image = %s,
transaction_date = CURRENT_TIMESTAMP, paid = FALSE WHERE transaction_id =
%s`. -/
def proofRow (tid : Nat) (url : String) (clock : Nat) (t : TxnRow) : TxnRow :=
  if t.transaction_id == tid then
    { t with transaction_image := some url, transaction_date := clock, paid := false }
  else t

/-- Row effect of `UPDATE transactions SET transaction_confirmed = TRUE,
paid = TRUE WHERE transaction_id = %s`. -/
def payRow (tid : Nat) (t : TxnRow) : TxnRow :=
  if t.transaction_id == tid then
    { t with transaction_confirmed := true, paid := true }
  else t

/-- Row effect of `UPDATE transactions SET transaction_confirmed = TRUE,
paid = TRUE WHERE user_id = %s AND paid = FALSE`. -/
def payAllRow (uid : Int) (t : TxnRow) : TxnRow :=
  if t.user_id == uid && !t.paid then
    { t with transaction_confirmed := true, paid := true }
  else t

/-- Row effect of `UPDATE transactions SET ticket_message_id = %s
WHERE transaction_id = %s`. -/
def ticketRow (tid : Nat) (mid : Int) (t : TxnRow) : TxnRow :=
  if t.transaction_id == tid then { t with ticket_message_id := some mid } else t

/-- Row effect of `UPDATE transactions SET ticket_message_id = NULL WHERE
ticket_message_id = ANY(%s) AND paid = FALSE` (a `NULL` reference never
matches `ANY`). -/
def cleanRow (mids : List Int) (t : TxnRow) : TxnRow :=
  if (match t.ticket_message_id with
      | some m => mids.contains m
      | none => false) && !t.paid then
    { t with ticket_message_id := none }
  else t

/-- Embeds `DatabaseManager.add_or_get_user`: with a username, `INSERT .. ON
CONFLICT DO UPDATE SET username = EXCLUDED.username RETURNING username`;
without one, `INSERT .. ON CONFLICT DO NOTHING RETURNING username` (the
conflicting insert returns no row, so the method returns `None`). -/
def addOrGetUser (uid : Int) (uname : Option String) (db : DB) : DB × Option String :=
  match uname with
  | some un =>
      if (findUser db uid).isSome then
        ({ db with users := db.users.map (setNameRow uid un) }, some un)
      else
        ({ db with users := db.users ++ [⟨uid, some un, 0⟩] }, some un)
  | none =>
      if (findUser db uid).isSome then (db, none)
      else ({ db with users := db.users ++ [⟨uid, none, 0⟩] }, none)

/-- Embeds `DatabaseManager.increment_commentation_with_price`: upsert the bare
user row, insert a transaction with `total_price = _extract_numeric(price)`
and `commented_count = 1`, add the same amount to the user's
`total_unpaid`, and commit the three statements as one transaction. -/
def incrementCommentationWithPrice (uid : Int) (price : String)
    (desc : Option String) (db : DB) : DB × Nat :=
  let db1 := if (findUser db uid).isSome then db
             else { db with users := db.users ++ [⟨uid, none, 0⟩] }
  let v := extractNumeric price
  let row : TxnRow :=
    ⟨db1.nextId, uid, 1, price, v, none, false, db1.clock, false, none, desc⟩
  let db2 := { db1 with
     txns := db1.txns ++ [row], nextId := db1.nextId + 1, clock := db1.clock + 1 }
  ({ db2 with users := db2.users.map (addBalRow uid v) }, db1.nextId)

/-- Embeds `DatabaseManager.update_transaction`: `SET transaction_image = %s,
transaction_date = CURRENT_TIMESTAMP, paid = FALSE WHERE transaction_id =
%s`. No other column is written. -/
def updateTransaction (tid : Nat) (url : String) (db : DB) : DB :=
  { db with txns := db.txns.map (proofRow tid url db.clock), clock := db.clock + 1 }

/-- Embeds `DatabaseManager.confirm_transaction`: set `transaction_confirmed` and
`paid` for the row, then subtract its `total_price` from the owner's
`total_unpaid` — with no `paid = FALSE` guard on either statement.  When
the row is absent the `fetchone()[0]` raises and the transaction rolls
back, leaving the store unchanged. -/
def confirmTransaction (tid : Nat) (db : DB) : DB :=
  match findTxn db tid with
  | none => db
  | some t0 =>
      { db with
        txns := db.txns.map (payRow tid),
        users := db.users.map (subBalRow t0.user_id t0.total_price) }

/-- Embeds `DatabaseManager.confirm_all_user_transactions`: pay and confirm every
unpaid row of the user, then `SET total_unpaid = 0` on the user row. -/
def confirmAllUserTransactions (uid : Int) (db : DB) : DB :=
  { db with
    txns := db.txns.map (payAllRow uid),
    users := db.users.map (zeroBalRow uid) }

/-- Embeds `DatabaseManager.set_ticket_message_id`. -/
def setTicketMessageId (tid : Nat) (mid : Int) (db : DB) : DB :=
  { db with txns := db.txns.map (ticketRow tid mid) }

/-- Embeds `DatabaseManager.clean_deleted_message_refs`. -/
def cleanDeletedMessageRefs (mids : List Int) (db : DB) : DB :=
  { db with txns := db.txns.map (cleanRow mids) }

/-- The store operations named by the balance-invariant claim. -/
inductive Op where
  | upsert (uid : Int) (uname : Option String)
  | create (uid : Int) (price : String) (desc : Option String)
  | updateProof (tid : Nat) (url : String)
  | confirm (tid : Nat)
  | confirmAll (uid : Int)
  | setTicket (tid : Nat) (mid : Int)
  | cleanRefs (mids : List Int)
deriving DecidableEq

/-- Effect of one store operation (result values dropped). -/
def step (op : Op) (db : DB) : DB :=
  match op with
  | .upsert uid un => (addOrGetUser uid un db).1
  | .create uid p d => (incrementCommentationWithPrice uid p d db).1
  | .updateProof tid url => updateTransaction tid url db
  | .confirm tid => confirmTransaction tid db
  | .confirmAll uid => confirmAllUserTransactions uid db
  | .setTicket tid mid => setTicketMessageId tid mid db
  | .cleanRefs ms => cleanDeletedMessageRefs ms db

/-- The store after a sequence of operations from a fresh database. -/
def run (ops : List Op) : DB := ops.foldl (fun db op => step op db) emptyDB

/-- A store state the system can actually be in. -/
def Reachable (db : DB) : Prop := ∃ ops, run ops = db

/-- Sum of `total_price` over the unpaid transactions owned by `uid`. -/
def unpaidSum (uid : Int) (txns : List TxnRow) : ℚ :=
  ((txns.filter (fun t => t.user_id == uid && !t.paid)).map (fun t => t.total_price)).sum

/-- The denormalised-balance invariant of the spec: every user row caches
the sum of its unpaid transactions' amounts. -/
def Inv (db : DB) : Prop :=
  ∀ u ∈ db.users, u.total_unpaid = unpaidSum u.user_id db.txns

instance instDecidableInv (db : DB) : Decidable (Inv db) := by
  unfold Inv; infer_instance

/-- Property that `paid` implies `transaction_confirmed`: the code only ever sets `paid`
together with `transaction_confirmed`. -/
def PaidConf (db : DB) : Prop :=
  ∀ t ∈ db.txns, t.paid = true → t.transaction_confirmed = true

instance instDecidablePaidConf (db : DB) : Decidable (PaidConf db) := by
  unfold PaidConf; infer_instance

/-- Does `pat` occur at the head of `s`? -/
def charsStartWith : List Char → List Char → Bool
  | _, [] => true
  | [], _ :: _ => false
  | a :: as, b :: bs => a == b && charsStartWith as bs

/-- Python `pat in s` on strings: `pat` occurs somewhere in `s`. -/
def strHasSub (s pat : String) : Bool :=
  (List.range (s.data.length + 1)).any (fun i => charsStartWith (s.data.drop i) pat.data)

/-- One message of the ticket channel, as far as `PaymentView` inspects
it: its id, whether the bot authored it, and its content text. -/
structure Msg where
  msgId : Nat
  botAuthored : Bool
  content : String
deriving DecidableEq

/-- The mutable state of one `PaymentView` control: the bound user and
transaction, the `disabled` flags of its two buttons and the `stop` flag.
(`bound user`/`transaction` are fixed at construction.) -/
structure PView where
  boundUser : Int
  transactionId : Nat
  submitDisabled : Bool
  verifyDisabled : Bool
  stopped : Bool
deriving DecidableEq

/-- The world a `PaymentView` interacts with: the store, the channel's
messages, the single-slot per-user image store, the view itself, and a
fresh-message-id counter. -/
structure World where
  db : DB
  msgs : List Msg
  images : List (Int × String)
  view : PView
  nextMsgId : Nat
deriving DecidableEq

/-- Embeds `ImageStore.get_image`. -/
def lookupImage (images : List (Int × String)) (uid : Int) : Option String :=
  (images.find? (fun p => p.1 == uid)).map (fun p => p.2)

/-- Embeds `PaymentView.submit_payment`: rejected unless the invoker is the bound
user and an image is pending; on success it persists the image URL
(`update_transaction`), deletes the bot's previous "Payment proof
submitted" notices, posts a new notice, disables the submit button and
clears the pending image.  The view is not stopped. -/
def submitPayment (actor : Int) (w : World) : World :=
  if actor != w.view.boundUser then w
  else
    match lookupImage w.images actor with
    | none => w
    | some url =>
        { db := updateTransaction w.view.transactionId url w.db,
          msgs := (w.msgs.filter (fun m =>
              !(m.botAuthored && strHasSub m.content "Payment proof submitted")))
            ++ [⟨w.nextMsgId, true,
                 "Payment proof submitted by @user\nAdmin @admin please verify."⟩],
          images := w.images.filter (fun p => p.1 != actor),
          view := { w.view with submitDisabled := true },
          nextMsgId := w.nextMsgId + 1 }

/-- Embeds `PaymentView.verify_payment`: rejected unless the invoker holds
elevated channel permissions; on success it confirms all of the bound
user's unpaid transactions, deletes every bot-authored message of the
channel (the ticket message hosting this control included) and posts a
verification notice.  It does not touch the buttons and never calls
`stop`. -/
def verifyPayment (actorIsAdmin : Bool) (w : World) : World :=
  if !actorIsAdmin then w
  else
    { db := confirmAllUserTransactions w.view.boundUser w.db,
      msgs := (w.msgs.filter (fun m => !m.botAuthored))
        ++ [⟨w.nextMsgId, true, "All payments for @user verified by @admin"⟩],
      images := w.images,
      view := w.view,
      nextMsgId := w.nextMsgId + 1 }

/-- Embeds `PaymentView.stop`: disables every child button and stops the view.
No code path of the repository invokes it after a verification. -/
def viewStop (w : World) : World :=
  { w with view := { w.view with
      submitDisabled := true, verifyDisabled := true, stopped := true } }

/-- The chat-platform effects the `lunch` command depends on per user:
whether the ticket channel can be created or fetched, and the id the
ticket message gets when posted. -/
structure ChargeEnv where
  channelOk : Int → Bool
  msgIdFor : Int → Int

/-- The body of the per-user loop of the `lunch` command: upsert the user
with their display name, create the transaction (the commit point), then
create the ticket channel and post the ticket message; channel-creation
failure raises after the commit, so the transaction and balance increment
survive it.  Returns the new store and whether the user succeeded. -/
def processUser (env : ChargeEnv) (price : String) (db : DB)
    (uid : Int) (uname : String) : DB × Bool :=
  let dbA := (addOrGetUser uid (some uname) db).1
  let r := incrementCommentationWithPrice uid price none dbA
  if env.channelOk uid then
    (setTicketMessageId r.2 (env.msgIdFor uid) r.1, true)
  else (r.1, false)

/-- The per-user loop of the `lunch` command: one user's failure is caught
and recorded in `failed_users` with its reason, and the loop continues
with the remaining users. -/
def lunchLoop (env : ChargeEnv) (price : String) :
    DB → List (Int × String) → DB × List String × List String
  | db, [] => (db, [], [])
  | db, (uid, uname) :: rest =>
      let pr := processUser env price db uid uname
      let r := lunchLoop env price pr.1 rest
      if pr.2 then (r.1, uname :: r.2.1, r.2.2)
      else (r.1, r.2.1, (uname ++ " (Could not create ticket channel)") :: r.2.2)

/-- The `lunch` command after its permission check: reject an empty user
list, validate the price (digit-and-dot filter must parse as a positive
float), then process every mentioned user independently, returning the
store and the two aggregate report lists. -/
def lunchCommand (env : ChargeEnv) (db : DB) (users : List (Int × String))
    (price : String) : Option (DB × List String × List String) :=
  if users.isEmpty then none
  else
    match parseFloatNumeric (filterNumeric price) with
    | none => none
    | some v => if v ≤ 0 then none else some (lunchLoop env price db users)

/-! ### Bookkeeping lemmas for `unpaidSum` -/

/-- Contribution of one transaction row to `unpaidSum uid`. -/
def contrib (uid : Int) (t : TxnRow) : ℚ :=
  if t.user_id == uid && !t.paid then t.total_price else 0

theorem unpaidSum_eq_sum_contrib (uid : Int) (l : List TxnRow) :
    unpaidSum uid l = (l.map (contrib uid)).sum := by
  induction l with
  | nil => rfl
  | cons h t ih =>
      unfold unpaidSum at ih ⊢
      rw [List.filter_cons, List.map_cons, List.sum_cons]
      by_cases hc : (h.user_id == uid && !h.paid) = true
      · rw [if_pos hc, List.map_cons, List.sum_cons, ih, contrib, if_pos hc]
      · rw [if_neg hc, ih, contrib, if_neg hc, zero_add]

theorem unpaidSum_cons (uid : Int) (h : TxnRow) (l : List TxnRow) :
    unpaidSum uid (h :: l) = contrib uid h + unpaidSum uid l := by
  rw [unpaidSum_eq_sum_contrib, unpaidSum_eq_sum_contrib, List.map_cons, List.sum_cons]

theorem unpaidSum_append (uid : Int) (l₁ l₂ : List TxnRow) :
    unpaidSum uid (l₁ ++ l₂) = unpaidSum uid l₁ + unpaidSum uid l₂ := by
  rw [unpaidSum_eq_sum_contrib, unpaidSum_eq_sum_contrib, unpaidSum_eq_sum_contrib,
    List.map_append, List.sum_append]

theorem unpaidSum_map_congr {uid : Int} {f : TxnRow → TxnRow} {l : List TxnRow}
    (h : ∀ t ∈ l, contrib uid (f t) = contrib uid t) :
    unpaidSum uid (l.map f) = unpaidSum uid l := by
  rw [unpaidSum_eq_sum_contrib, unpaidSum_eq_sum_contrib, List.map_map]
  exact congrArg List.sum (List.map_congr_left h)

theorem unpaidSum_map_zero {uid : Int} {f : TxnRow → TxnRow} {l : List TxnRow}
    (h : ∀ t ∈ l, contrib uid (f t) = 0) :
    unpaidSum uid (l.map f) = 0 := by
  rw [unpaidSum_eq_sum_contrib, List.map_map]
  exact List.sum_eq_zero (by
    intro x hx
    rcases List.mem_map.mp hx with ⟨t, ht, rfl⟩
    exact h t ht)

theorem unpaidSum_eq_zero_of_no_owner {uid : Int} {l : List TxnRow}
    (h : ∀ t ∈ l, t.user_id ≠ uid) :
    unpaidSum uid l = 0 := by
  rw [unpaidSum_eq_sum_contrib]
  exact List.sum_eq_zero (by
    intro x hx
    rcases List.mem_map.mp hx with ⟨t, ht, rfl⟩
    have : (t.user_id == uid) = false := by
      simpa using h t ht
    simp [contrib, this])

theorem find?_cons_pos {α : Type} (p : α → Bool) (a : α) (l : List α)
    (h : p a = true) : List.find? p (a :: l) = some a :=
  List.find?_cons_of_pos l h

theorem find?_cons_neg {α : Type} (p : α → Bool) (a : α) (l : List α)
    (h : ¬ p a = true) : List.find? p (a :: l) = List.find? p l :=
  List.find?_cons_of_neg l h

/-- The lemma that `find?` commutes with a map that does not change the predicate. -/
theorem find?_map_pres {α : Type} {f : α → α} {p : α → Bool}
    (hf : ∀ x, p (f x) = p x) :
    ∀ l : List α, (l.map f).find? p = (l.find? p).map f := by
  intro l
  induction l with
  | nil => rfl
  | cons h t ih =>
      by_cases hp : p h = true
      · rw [List.map_cons, find?_cons_pos p (f h) (t.map f) ((hf h).trans hp),
          find?_cons_pos p h t hp]
        rfl
      · rw [List.map_cons, find?_cons_neg p (f h) (t.map f) (by rw [hf h]; exact hp),
          find?_cons_neg p h t hp, ih]

/-- Paying the unique row matching `tid` lowers `unpaidSum uid` by exactly
that row's contribution. -/
theorem unpaidSum_confirm_map {tid : Nat} {t0 : TxnRow} {l : List TxnRow}
    (hfind : l.find? (fun t => t.transaction_id == tid) = some t0)
    (hnodup : (l.map (fun t => t.transaction_id)).Nodup) (uid : Int) :
    unpaidSum uid (l.map (fun t =>
        if t.transaction_id == tid then
          { t with transaction_confirmed := true, paid := true }
        else t))
      = unpaidSum uid l - contrib uid t0 := by
  induction l with
  | nil => exact absurd hfind (by simp)
  | cons h l ih =>
      rw [List.map_cons, List.nodup_cons] at hnodup
      by_cases hb : (h.transaction_id == tid) = true
      · rw [find?_cons_pos (fun t => t.transaction_id == tid) h l hb] at hfind
        injection hfind with hfind
        subst hfind
        have htail : ∀ t ∈ l,
            (if t.transaction_id == tid then
              { t with transaction_confirmed := true, paid := true } else t) = t := by
          intro t htl
          have hne : (t.transaction_id == tid) = false := by
            rcases Bool.eq_false_or_eq_true (t.transaction_id == tid) with htr | hfa
            · exfalso
              have hmem : t.transaction_id ∈ List.map (fun t => t.transaction_id) l :=
                List.mem_map.mpr ⟨t, htl, rfl⟩
              have heq : t.transaction_id = h.transaction_id := by
                rw [eq_of_beq htr, ← eq_of_beq hb]
              rw [heq] at hmem
              exact hnodup.1 hmem
            · exact hfa
          simp [hne]
        have hml : List.map (fun t =>
            if t.transaction_id == tid then
              { t with transaction_confirmed := true, paid := true } else t) l = l := by
          rw [List.map_congr_left htail]
          simp
        rw [List.map_cons, if_pos hb, hml, unpaidSum_cons, unpaidSum_cons]
        have hzero : contrib uid { h with transaction_confirmed := true, paid := true } = 0 := by
          simp [contrib]
        rw [hzero]
        ring
      · rw [find?_cons_neg (fun t => t.transaction_id == tid) h l hb] at hfind
        rw [List.map_cons, if_neg hb, unpaidSum_cons, unpaidSum_cons, ih hfind hnodup.2]
        ring

/-- Lemma `unpaidSum_confirm_map` restated through `payRow`. -/
theorem unpaidSum_payRow_map {tid : Nat} {t0 : TxnRow} {l : List TxnRow}
    (hfind : l.find? (fun t => t.transaction_id == tid) = some t0)
    (hnodup : (l.map (fun t => t.transaction_id)).Nodup) (uid : Int) :
    unpaidSum uid (l.map (payRow tid)) = unpaidSum uid l - contrib uid t0 := by
  have hmap : List.map (payRow tid) l = List.map (fun t =>
      if t.transaction_id == tid then
        { t with transaction_confirmed := true, paid := true }
      else t) l :=
    List.map_congr_left (fun a _ => rfl)
  rw [hmap]
  exact unpaidSum_confirm_map hfind hnodup uid

/-! ### Field-preservation facts for the row transformers -/

theorem setNameRow_uid (uid : Int) (un : String) (u : UserRow) :
    (setNameRow uid un u).user_id = u.user_id := by
  unfold setNameRow; split <;> rfl

theorem setNameRow_bal (uid : Int) (un : String) (u : UserRow) :
    (setNameRow uid un u).total_unpaid = u.total_unpaid := by
  unfold setNameRow; split <;> rfl

theorem addBalRow_uid (uid : Int) (v : ℚ) (u : UserRow) :
    (addBalRow uid v u).user_id = u.user_id := by
  unfold addBalRow; split <;> rfl

theorem subBalRow_uid (uid : Int) (v : ℚ) (u : UserRow) :
    (subBalRow uid v u).user_id = u.user_id := by
  unfold subBalRow; split <;> rfl

theorem zeroBalRow_uid (uid : Int) (u : UserRow) :
    (zeroBalRow uid u).user_id = u.user_id := by
  unfold zeroBalRow; split <;> rfl

theorem proofRow_fields (tid : Nat) (url : String) (c : Nat) (t : TxnRow) :
    (proofRow tid url c t).transaction_id = t.transaction_id ∧
    (proofRow tid url c t).user_id = t.user_id ∧
    (proofRow tid url c t).total_price = t.total_price := by
  unfold proofRow; split <;> exact ⟨rfl, rfl, rfl⟩

theorem payRow_fields (tid : Nat) (t : TxnRow) :
    (payRow tid t).transaction_id = t.transaction_id ∧
    (payRow tid t).user_id = t.user_id ∧
    (payRow tid t).total_price = t.total_price := by
  unfold payRow; split <;> exact ⟨rfl, rfl, rfl⟩

theorem payAllRow_fields (uid : Int) (t : TxnRow) :
    (payAllRow uid t).transaction_id = t.transaction_id ∧
    (payAllRow uid t).user_id = t.user_id ∧
    (payAllRow uid t).total_price = t.total_price := by
  unfold payAllRow; split <;> exact ⟨rfl, rfl, rfl⟩

theorem ticketRow_fields (tid : Nat) (mid : Int) (t : TxnRow) :
    (ticketRow tid mid t).transaction_id = t.transaction_id ∧
    (ticketRow tid mid t).user_id = t.user_id ∧
    (ticketRow tid mid t).total_price = t.total_price ∧
    (ticketRow tid mid t).paid = t.paid ∧
    (ticketRow tid mid t).transaction_confirmed = t.transaction_confirmed := by
  unfold ticketRow; split <;> exact ⟨rfl, rfl, rfl, rfl, rfl⟩

theorem cleanRow_fields (mids : List Int) (t : TxnRow) :
    (cleanRow mids t).transaction_id = t.transaction_id ∧
    (cleanRow mids t).user_id = t.user_id ∧
    (cleanRow mids t).total_price = t.total_price ∧
    (cleanRow mids t).paid = t.paid ∧
    (cleanRow mids t).transaction_confirmed = t.transaction_confirmed := by
  unfold cleanRow; split <;> exact ⟨rfl, rfl, rfl, rfl, rfl⟩

/-! ### Well-formedness of stores -/

/-- Structural facts every reachable store satisfies: every transaction's
owner row exists, transaction ids stay below the id counter, and
transaction ids are pairwise distinct. -/
structure DBWF (db : DB) : Prop where
  owners : ∀ t ∈ db.txns, ∃ u ∈ db.users, u.user_id = t.user_id
  tidLt : ∀ t ∈ db.txns, t.transaction_id < db.nextId
  tidNodup : (db.txns.map (fun t => t.transaction_id)).Nodup

theorem dbwf_empty : DBWF emptyDB := by
  constructor
  · intro t ht; cases ht
  · intro t ht; cases ht
  · exact List.nodup_nil

/-- Well-formedness survives mapping both tables through row transformers
that keep ids, as long as the id counter does not shrink. -/
theorem dbwf_map {db db' : DB} {f : TxnRow → TxnRow} {g : UserRow → UserRow}
    (hdb : DBWF db)
    (htx : db'.txns = db.txns.map f)
    (hus : db'.users = db.users.map g)
    (hid : ∀ t, (f t).transaction_id = t.transaction_id)
    (huid : ∀ t, (f t).user_id = t.user_id)
    (hgid : ∀ u, (g u).user_id = u.user_id)
    (hn : db.nextId ≤ db'.nextId) : DBWF db' := by
  constructor
  · intro t' ht'
    rw [htx] at ht'
    rcases List.mem_map.mp ht' with ⟨t, ht, rfl⟩
    rcases hdb.owners t ht with ⟨u, hu, he⟩
    exact ⟨g u, by rw [hus]; exact List.mem_map.mpr ⟨u, hu, rfl⟩, by rw [hgid, he, huid]⟩
  · intro t' ht'
    rw [htx] at ht'
    rcases List.mem_map.mp ht' with ⟨t, ht, rfl⟩
    rw [hid]
    exact lt_of_lt_of_le (hdb.tidLt t ht) hn
  · rw [htx, List.map_map]
    have : (fun t => t.transaction_id) ∘ f = fun t => t.transaction_id := by
      funext t; exact hid t
    rw [this]
    exact hdb.tidNodup

/-- Well-formedness survives appending a fresh user row. -/
theorem dbwf_freshUser {db : DB} (hdb : DBWF db) (uid : Int) (un : Option String) :
    DBWF { db with users := db.users ++ [⟨uid, un, 0⟩] } := by
  constructor
  · intro t ht
    rcases hdb.owners t ht with ⟨u, hu, he⟩
    exact ⟨u, List.mem_append_left _ hu, he⟩
  · exact hdb.tidLt
  · exact hdb.tidNodup

/-- Well-formedness survives inserting the new transaction row of
`increment_commentation_with_price`. -/
theorem dbwf_insertTxn {db : DB} (hdb : DBWF db) (row : TxnRow)
    (hrowid : row.transaction_id = db.nextId)
    (howner : ∃ u ∈ db.users, u.user_id = row.user_id)
    {db' : DB}
    (htx : db'.txns = db.txns ++ [row])
    (hus : db'.users = db.users)
    (hn : db'.nextId = db.nextId + 1) : DBWF db' := by
  constructor
  · intro t ht
    rw [htx] at ht
    rcases List.mem_append.mp ht with h | h
    · rcases hdb.owners t h with ⟨u, hu, he⟩
      exact ⟨u, by rw [hus]; exact hu, he⟩
    · rcases howner with ⟨u, hu, he⟩
      have : t = row := by simpa using h
      subst this
      exact ⟨u, by rw [hus]; exact hu, he⟩
  · intro t ht
    rw [htx] at ht
    rw [hn]
    rcases List.mem_append.mp ht with h | h
    · exact lt_trans (hdb.tidLt t h) (Nat.lt_succ_self _)
    · have : t = row := by simpa using h
      subst this
      rw [hrowid]
      exact Nat.lt_succ_self _
  · rw [htx, List.map_append]
    rw [List.nodup_append]
    refine ⟨hdb.tidNodup, List.nodup_singleton _, ?_⟩
    intro x hx hx'
    have hxr : x = row.transaction_id := by simpa using hx'
    rcases List.mem_map.mp hx with ⟨t, ht, rfl⟩
    have := hdb.tidLt t ht
    rw [hxr, hrowid] at this
    exact absurd this (lt_irrefl _)

/-! ### Guards for the balance invariant -/

/-- The guard under which one operation keeps the balance invariant:
`confirm_transaction` and `update_transaction` must target only rows that
are unpaid at the moment of the call (all other operations are
unconditional). -/
def okOp (db : DB) : Op → Prop
  | .confirm tid => ∀ t ∈ db.txns, t.transaction_id = tid → t.paid = false
  | .updateProof tid _ => ∀ t ∈ db.txns, t.transaction_id = tid → t.paid = false
  | _ => True

instance instDecidableOkOp (db : DB) (op : Op) : Decidable (okOp db op) := by
  cases op <;> simp only [okOp] <;> infer_instance

/-- Every `confirm_transaction` / `update_transaction` call of the
sequence targets an unpaid transaction at call time. -/
def GuardedFrom : DB → List Op → Prop
  | _, [] => True
  | db, op :: rest => okOp db op ∧ GuardedFrom (step op db) rest

instance instDecidableGuardedFrom :
    (db : DB) → (l : List Op) → Decidable (GuardedFrom db l)
  | _, [] => .isTrue trivial
  | db, op :: rest =>
      have h1 : Decidable (okOp db op) := instDecidableOkOp db op
      have h2 : Decidable (GuardedFrom (step op db) rest) :=
        instDecidableGuardedFrom (step op db) rest
      @instDecidableAnd _ _ h1 h2

theorem beq_comm_false {α : Type} [BEq α] [LawfulBEq α] {a b : α}
    (h : ¬ (a == b) = true) : (b == a) = false := by
  have hne : ¬ a = b := fun he => h (by rw [he]; exact beq_self_eq_true b)
  rcases Bool.eq_false_or_eq_true (b == a) with h' | h'
  · exact absurd (eq_of_beq h').symm hne
  · exact h'

/-! ### Per-operation preservation of the balance invariant -/

/-- Mapping the user table through a transformer that keeps ids and
balances preserves the invariant and well-formedness. -/
theorem invw_users_map {db : DB} {g : UserRow → UserRow}
    (hgid : ∀ u, (g u).user_id = u.user_id)
    (hgbal : ∀ u, (g u).total_unpaid = u.total_unpaid)
    (hI : Inv db) (hW : DBWF db) :
    Inv { db with users := db.users.map g } ∧
    DBWF { db with users := db.users.map g } := by
  constructor
  · intro u' hu'
    rcases List.mem_map.mp hu' with ⟨u, hu, rfl⟩
    rw [hgid, hgbal]
    exact hI u hu
  · exact dbwf_map hW (by simp) rfl (fun t => rfl) (fun t => rfl) hgid le_rfl

/-- If `uid` has no user row, no transaction is owned by `uid`. -/
theorem no_txn_of_absent {db : DB} (hW : DBWF db) {uid : Int}
    (habs : ¬ (findUser db uid).isSome = true) :
    ∀ t ∈ db.txns, t.user_id ≠ uid := by
  intro t ht he
  rcases hW.owners t ht with ⟨u, hu, hue⟩
  exact habs (List.find?_isSome.mpr ⟨u, hu, by rw [hue, he]; exact beq_self_eq_true uid⟩)

/-- Appending a fresh zero-balance user row preserves the invariant and
well-formedness. -/
theorem invw_freshUser {db : DB} (hI : Inv db) (hW : DBWF db) (uid : Int)
    (un : Option String) (habs : ¬ (findUser db uid).isSome = true) :
    Inv { db with users := db.users ++ [⟨uid, un, 0⟩] } ∧
    DBWF { db with users := db.users ++ [⟨uid, un, 0⟩] } := by
  refine ⟨?_, dbwf_freshUser hW uid un⟩
  intro u' hu'
  rcases List.mem_append.mp hu' with h | h
  · exact hI u' h
  · have : u' = ⟨uid, un, 0⟩ := by simpa using h
    subst this
    exact (unpaidSum_eq_zero_of_no_owner (no_txn_of_absent hW habs)).symm

/-- Operation `add_or_get_user` preserves the invariant and well-formedness. -/
theorem invw_upsert (uid : Int) (un : Option String) (db : DB)
    (hI : Inv db) (hW : DBWF db) :
    Inv (addOrGetUser uid un db).1 ∧ DBWF (addOrGetUser uid un db).1 := by
  cases un with
  | none =>
      by_cases hex : (findUser db uid).isSome = true
      · simpa [addOrGetUser, hex] using And.intro hI hW
      · have h := invw_freshUser hI hW uid none hex
        simpa [addOrGetUser, hex] using h
  | some un =>
      by_cases hex : (findUser db uid).isSome = true
      · have h := invw_users_map (setNameRow_uid uid un) (setNameRow_bal uid un) hI hW
        simpa [addOrGetUser, hex] using h
      · have h := invw_freshUser hI hW uid (some un) hex
        simpa [addOrGetUser, hex] using h

theorem unpaidSum_nil (uid : Int) : unpaidSum uid [] = 0 := rfl

theorem unpaidSum_singleton (uid : Int) (t : TxnRow) :
    unpaidSum uid [t] = contrib uid t := by
  rw [unpaidSum_cons, unpaidSum_nil, add_zero]

theorem contrib_congr {t t' : TxnRow} (h1 : t'.user_id = t.user_id)
    (h2 : t'.paid = t.paid) (h3 : t'.total_price = t.total_price) (uid : Int) :
    contrib uid t' = contrib uid t := by
  unfold contrib
  rw [h1, h2, h3]

/-- Inserting the new transaction row of a charge and adding its amount to
the owner's balance preserves the invariant and well-formedness. -/
theorem invw_insert_and_add {db1 : DB} (hI1 : Inv db1) (hW1 : DBWF db1)
    (uid : Int) (hown : ∃ u ∈ db1.users, u.user_id = uid) (v : ℚ)
    (price : String) (desc : Option String) :
    Inv { users := db1.users.map (addBalRow uid v),
          txns := db1.txns ++ [⟨db1.nextId, uid, 1, price, v, none, false,
                                db1.clock, false, none, desc⟩],
          nextId := db1.nextId + 1, clock := db1.clock + 1 } ∧
    DBWF { users := db1.users.map (addBalRow uid v),
           txns := db1.txns ++ [⟨db1.nextId, uid, 1, price, v, none, false,
                                 db1.clock, false, none, desc⟩],
           nextId := db1.nextId + 1, clock := db1.clock + 1 } := by
  constructor
  · intro u' hu'
    rcases List.mem_map.mp hu' with ⟨u, hu, rfl⟩
    by_cases hm : (u.user_id == uid) = true
    · simp only [addBalRow, if_pos hm]
      rw [unpaidSum_append, unpaidSum_singleton]
      have hc : contrib u.user_id
          ⟨db1.nextId, uid, 1, price, v, none, false, db1.clock, false, none, desc⟩ = v := by
        simp [contrib, eq_of_beq hm]
      rw [hc, hI1 u hu]
    · simp only [addBalRow, if_neg hm]
      rw [unpaidSum_append, unpaidSum_singleton]
      have hc : contrib u.user_id
          ⟨db1.nextId, uid, 1, price, v, none, false, db1.clock, false, none, desc⟩ = 0 := by
        simp [contrib, beq_comm_false hm]
      rw [hc, hI1 u hu, add_zero]
  · have hA : DBWF { db1 with
        txns := db1.txns ++ [⟨db1.nextId, uid, 1, price, v, none, false,
                              db1.clock, false, none, desc⟩],
        nextId := db1.nextId + 1, clock := db1.clock + 1 } :=
      dbwf_insertTxn hW1 _ rfl hown rfl rfl rfl
    exact dbwf_map hA (List.map_id _).symm rfl (fun t => rfl) (fun t => rfl)
      (addBalRow_uid uid v) le_rfl

/-- Operation `increment_commentation_with_price` preserves the invariant and
well-formedness. -/
theorem invw_create (uid : Int) (price : String) (desc : Option String)
    (db : DB) (hI : Inv db) (hW : DBWF db) :
    Inv (incrementCommentationWithPrice uid price desc db).1 ∧
    DBWF (incrementCommentationWithPrice uid price desc db).1 := by
  by_cases hex : (findUser db uid).isSome = true
  · rcases List.find?_isSome.mp hex with ⟨u, hu, hp⟩
    have h := invw_insert_and_add hI hW uid ⟨u, hu, eq_of_beq hp⟩
      (extractNumeric price) price desc
    simpa [incrementCommentationWithPrice, hex] using h
  · have h1 := invw_freshUser hI hW uid none hex
    have hown : ∃ u ∈ ({ db with users := db.users ++ [⟨uid, none, 0⟩] } : DB).users,
        u.user_id = uid :=
      ⟨⟨uid, none, 0⟩, List.mem_append_right _ (by simp), rfl⟩
    have h := invw_insert_and_add h1.1 h1.2 uid hown (extractNumeric price) price desc
    simpa [incrementCommentationWithPrice, hex] using h

/-- Mapping the transaction table through a contribution-preserving,
id-preserving transformer preserves the invariant and well-formedness. -/
theorem invw_txns_map (db db' : DB) (f : TxnRow → TxnRow)
    (hus : db'.users = db.users)
    (htx : db'.txns = db.txns.map f)
    (hcontrib : ∀ uid, ∀ t ∈ db.txns, contrib uid (f t) = contrib uid t)
    (hid : ∀ t, (f t).transaction_id = t.transaction_id)
    (huid : ∀ t, (f t).user_id = t.user_id)
    (hn : db.nextId ≤ db'.nextId)
    (hI : Inv db) (hW : DBWF db) : Inv db' ∧ DBWF db' := by
  constructor
  · intro u hu
    rw [hus] at hu
    rw [htx, unpaidSum_map_congr (hcontrib u.user_id)]
    exact hI u hu
  · exact dbwf_map hW htx (hus.trans (List.map_id db.users).symm) hid huid
      (fun u => rfl) hn

/-- Operation `update_transaction` on a currently-unpaid target preserves the
invariant and well-formedness. -/
theorem invw_update (tid : Nat) (url : String) (db : DB) (hI : Inv db)
    (hW : DBWF db)
    (hok : ∀ t ∈ db.txns, t.transaction_id = tid → t.paid = false) :
    Inv (updateTransaction tid url db) ∧ DBWF (updateTransaction tid url db) := by
  apply invw_txns_map db (updateTransaction tid url db) (proofRow tid url db.clock)
    rfl rfl ?_ (fun t => (proofRow_fields tid url db.clock t).1)
    (fun t => (proofRow_fields tid url db.clock t).2.1) le_rfl hI hW
  intro uid t ht
  unfold proofRow
  by_cases hc : (t.transaction_id == tid) = true
  · rw [if_pos hc]
    have hp : t.paid = false := hok t ht (eq_of_beq hc)
    simp [contrib, hp]
  · rw [if_neg hc]

/-- Operation `set_ticket_message_id` preserves the invariant and well-formedness. -/
theorem invw_setTicket (tid : Nat) (mid : Int) (db : DB) (hI : Inv db)
    (hW : DBWF db) :
    Inv (setTicketMessageId tid mid db) ∧ DBWF (setTicketMessageId tid mid db) := by
  apply invw_txns_map db (setTicketMessageId tid mid db) (ticketRow tid mid)
    rfl rfl ?_ (fun t => (ticketRow_fields tid mid t).1)
    (fun t => (ticketRow_fields tid mid t).2.1) le_rfl hI hW
  intro uid t ht
  exact contrib_congr (ticketRow_fields tid mid t).2.1
    (ticketRow_fields tid mid t).2.2.2.1 (ticketRow_fields tid mid t).2.2.1 uid

/-- Operation `clean_deleted_message_refs` preserves the invariant and
well-formedness. -/
theorem invw_cleanRefs (mids : List Int) (db : DB) (hI : Inv db) (hW : DBWF db) :
    Inv (cleanDeletedMessageRefs mids db) ∧
    DBWF (cleanDeletedMessageRefs mids db) := by
  apply invw_txns_map db (cleanDeletedMessageRefs mids db) (cleanRow mids)
    rfl rfl ?_ (fun t => (cleanRow_fields mids t).1)
    (fun t => (cleanRow_fields mids t).2.1) le_rfl hI hW
  intro uid t ht
  exact contrib_congr (cleanRow_fields mids t).2.1
    (cleanRow_fields mids t).2.2.2.1 (cleanRow_fields mids t).2.2.1 uid

/-- Operation `confirm_transaction` on a currently-unpaid target preserves the
invariant and well-formedness. -/
theorem invw_confirm (tid : Nat) (db : DB) (hI : Inv db) (hW : DBWF db)
    (hok : ∀ t ∈ db.txns, t.transaction_id = tid → t.paid = false) :
    Inv (confirmTransaction tid db) ∧ DBWF (confirmTransaction tid db) := by
  cases hft : findTxn db tid with
  | none => simpa [confirmTransaction, hft] using And.intro hI hW
  | some t0 =>
      have hft' : db.txns.find? (fun t => t.transaction_id == tid) = some t0 := hft
      have ht0mem : t0 ∈ db.txns := List.mem_of_find?_eq_some hft'
      have hpt0 : (t0.transaction_id == tid) = true :=
        @List.find?_some _ (fun t => t.transaction_id == tid) t0 db.txns hft'
      have ht0id : t0.transaction_id = tid := eq_of_beq hpt0
      have ht0unpaid : t0.paid = false := hok t0 ht0mem ht0id
      have hshape : confirmTransaction tid db =
          { db with txns := db.txns.map (payRow tid),
                    users := db.users.map (subBalRow t0.user_id t0.total_price) } := by
        simp [confirmTransaction, hft]
      rw [hshape]
      constructor
      · intro u' hu'
        rcases List.mem_map.mp hu' with ⟨u, hu, rfl⟩
        have hsum := unpaidSum_payRow_map hft' hW.tidNodup
        by_cases hm : (u.user_id == t0.user_id) = true
        · simp only [subBalRow, if_pos hm]
          have hc : contrib u.user_id t0 = t0.total_price := by
            simp [contrib, eq_of_beq hm, ht0unpaid]
          have hgoal : u.total_unpaid - t0.total_price =
              unpaidSum u.user_id (db.txns.map (payRow tid)) := by
            rw [hsum u.user_id, hc, hI u hu]
          exact hgoal
        · simp only [subBalRow, if_neg hm]
          have hc : contrib u.user_id t0 = 0 := by
            simp [contrib, beq_comm_false hm]
          have hgoal : u.total_unpaid =
              unpaidSum u.user_id (db.txns.map (payRow tid)) := by
            rw [hsum u.user_id, hc, sub_zero]
            exact hI u hu
          exact hgoal
      · exact dbwf_map hW rfl rfl (fun t => (payRow_fields tid t).1)
          (fun t => (payRow_fields tid t).2.1) (subBalRow_uid _ _) le_rfl

/-- Operation `confirm_all_user_transactions` preserves the invariant and
well-formedness. -/
theorem invw_confirmAll (uid : Int) (db : DB) (hI : Inv db) (hW : DBWF db) :
    Inv (confirmAllUserTransactions uid db) ∧
    DBWF (confirmAllUserTransactions uid db) := by
  constructor
  · intro u' hu'
    rcases List.mem_map.mp hu' with ⟨u, hu, rfl⟩
    by_cases hm : (u.user_id == uid) = true
    · simp only [zeroBalRow, if_pos hm]
      have h0 : unpaidSum u.user_id (db.txns.map (payAllRow uid)) = 0 := by
        apply unpaidSum_map_zero
        intro t ht
        unfold payAllRow
        by_cases hc : (t.user_id == uid && !t.paid) = true
        · rw [if_pos hc]
          simp [contrib]
        · rw [if_neg hc]
          have hcf : (t.user_id == uid && !t.paid) = false := by
            rcases Bool.eq_false_or_eq_true (t.user_id == uid && !t.paid) with h' | h'
            · exact absurd h' hc
            · exact h'
          have : contrib uid t = 0 := by
            simp [contrib, hcf]
          rw [eq_of_beq hm]
          exact this
      exact h0.symm
    · simp only [zeroBalRow, if_neg hm]
      have hs : unpaidSum u.user_id (db.txns.map (payAllRow uid)) =
          unpaidSum u.user_id db.txns := by
        apply unpaidSum_map_congr
        intro t ht
        unfold payAllRow
        by_cases hc : (t.user_id == uid && !t.paid) = true
        · rw [if_pos hc]
          have htu : t.user_id = uid := by
            rcases Bool.and_eq_true_iff.mp hc with ⟨h1, _⟩
            exact eq_of_beq h1
          have hne : (t.user_id == u.user_id) = false := by
            rw [htu]
            exact beq_comm_false hm
          simp [contrib, hne]
        · rw [if_neg hc]
      exact (hI u hu).trans hs.symm
  · exact dbwf_map hW rfl rfl (fun t => (payAllRow_fields uid t).1)
      (fun t => (payAllRow_fields uid t).2.1) (zeroBalRow_uid uid) le_rfl

/-- One guarded operation preserves the invariant and well-formedness. -/
theorem inv_step (op : Op) (db : DB) (hI : Inv db) (hW : DBWF db)
    (hok : okOp db op) : Inv (step op db) ∧ DBWF (step op db) := by
  cases op with
  | upsert uid un => exact invw_upsert uid un db hI hW
  | create uid p d => exact invw_create uid p d db hI hW
  | updateProof tid url => exact invw_update tid url db hI hW hok
  | confirm tid => exact invw_confirm tid db hI hW hok
  | confirmAll uid => exact invw_confirmAll uid db hI hW
  | setTicket tid mid => exact invw_setTicket tid mid db hI hW
  | cleanRefs ms => exact invw_cleanRefs ms db hI hW

theorem inv_empty : Inv emptyDB := by
  intro u hu
  cases hu

/-- A guarded operation sequence keeps the invariant from any invariant
well-formed start. -/
theorem guarded_foldl (ops : List Op) : ∀ db : DB, Inv db → DBWF db →
    GuardedFrom db ops →
    Inv (ops.foldl (fun db op => step op db) db) ∧
    DBWF (ops.foldl (fun db op => step op db) db) := by
  induction ops with
  | nil => intro db hI hW _; exact ⟨hI, hW⟩
  | cons op rest ih =>
      intro db hI hW hg
      have h := inv_step op db hI hW hg.1
      exact ih (step op db) h.1 h.2 hg.2

/-! ### `paid` implies `transaction_confirmed` along operation sequences -/

theorem paidconf_txns_eq {db db' : DB} (h : PaidConf db)
    (htx : db'.txns = db.txns) : PaidConf db' := by
  intro t ht
  rw [htx] at ht
  exact h t ht

theorem paidconf_map {db db' : DB} (h : PaidConf db) (f : TxnRow → TxnRow)
    (htx : db'.txns = db.txns.map f)
    (hf : ∀ t, (t.paid = true → t.transaction_confirmed = true) →
      ((f t).paid = true → (f t).transaction_confirmed = true)) : PaidConf db' := by
  intro t' ht'
  rw [htx] at ht'
  rcases List.mem_map.mp ht' with ⟨t, ht, rfl⟩
  exact hf t (h t ht)

theorem paidconf_append {db db' : DB} (h : PaidConf db) (row : TxnRow)
    (hrow : row.paid = false) (htx : db'.txns = db.txns ++ [row]) : PaidConf db' := by
  intro t ht
  rw [htx] at ht
  rcases List.mem_append.mp ht with h' | h'
  · exact h t h'
  · have : t = row := by simpa using h'
    subst this
    intro hp
    rw [hrow] at hp
    cases hp

/-- Every store operation keeps `paid → transaction_confirmed`: `paid` is
only ever set together with `transaction_confirmed`, or cleared. -/
theorem paidconf_step (op : Op) (db : DB) (h : PaidConf db) :
    PaidConf (step op db) := by
  cases op with
  | upsert uid un =>
      apply paidconf_txns_eq h
      cases un <;> by_cases hex : (findUser db uid).isSome = true <;>
        simp [step, addOrGetUser, hex]
  | create uid p d =>
      refine paidconf_append h
        ⟨db.nextId, uid, 1, p, extractNumeric p, none, false, db.clock,
          false, none, d⟩ rfl ?_
      by_cases hex : (findUser db uid).isSome = true <;>
        simp [step, incrementCommentationWithPrice, hex]
  | updateProof tid url =>
      apply paidconf_map h (proofRow tid url db.clock) rfl
      intro t hpc
      unfold proofRow
      by_cases hc : (t.transaction_id == tid) = true
      · rw [if_pos hc]
        intro hp
        simp at hp
      · rw [if_neg hc]
        exact hpc
  | confirm tid =>
      cases hft : findTxn db tid with
      | none => exact paidconf_txns_eq h (by simp [step, confirmTransaction, hft])
      | some t0 =>
          apply paidconf_map h (payRow tid) (by simp [step, confirmTransaction, hft])
          intro t hpc
          unfold payRow
          by_cases hc : (t.transaction_id == tid) = true
          · rw [if_pos hc]
            intro _
            rfl
          · rw [if_neg hc]
            exact hpc
  | confirmAll uid =>
      apply paidconf_map h (payAllRow uid) rfl
      intro t hpc
      unfold payAllRow
      by_cases hc : (t.user_id == uid && !t.paid) = true
      · rw [if_pos hc]
        intro _
        rfl
      · rw [if_neg hc]
        exact hpc
  | setTicket tid mid =>
      apply paidconf_map h (ticketRow tid mid) rfl
      intro t hpc hp
      rw [(ticketRow_fields tid mid t).2.2.2.2]
      apply hpc
      rw [← (ticketRow_fields tid mid t).2.2.2.1]
      exact hp
  | cleanRefs ms =>
      apply paidconf_map h (cleanRow ms) rfl
      intro t hpc hp
      rw [(cleanRow_fields ms t).2.2.2.2]
      apply hpc
      rw [← (cleanRow_fields ms t).2.2.2.1]
      exact hp

theorem paidconf_empty : PaidConf emptyDB := by
  intro t ht
  cases ht

theorem foldl_paidconf (ops : List Op) : ∀ db : DB, PaidConf db →
    PaidConf (ops.foldl (fun db op => step op db) db) := by
  induction ops with
  | nil => intro db h; exact h
  | cons op rest ih => intro db h; exact ih (step op db) (paidconf_step op db h)

/-- Every reachable store satisfies `paid → transaction_confirmed`. -/
theorem reachable_paidconf {db : DB} (h : Reachable db) : PaidConf db := by
  rcases h with ⟨ops, rfl⟩
  exact foldl_paidconf ops emptyDB paidconf_empty

/-! ### Claim C1: the balance invariant across operation sequences -/

/-- Claim C1, counterexample to the claim as stated.  The invariant is not
maintained by every operation sequence: charge user 1 with price `"5"`,
confirm the transaction (balance drops to 0), then submit a new payment
proof — `update_transaction` forces `paid = FALSE` without restoring the
balance, so the stored `total_unpaid` (0) no longer equals the unpaid sum
(5). -/
theorem balance_invariant_counterexample :
    ¬ Inv (run [Op.upsert 1 none, Op.create 1 "5" none, Op.confirm 1,
                Op.updateProof 1 "img"]) := by
  with_unfolding_all decide

/-- Claim C1, amended.  For every user, in every state of the store
reachable from the fresh store by a sequence of the operations (upsert
user, create transaction, update transaction proof, confirm transaction,
confirm all unpaid, set/clean ticket message ids) in which every
`confirm_transaction` and every `update_transaction` call targets a
transaction that is unpaid at the moment of that call, the user's
`total_unpaid` equals the sum of `total_price` over that user's
transactions with `paid = false`. -/
theorem balance_invariant_of_guarded (ops : List Op)
    (h : GuardedFrom emptyDB ops) : Inv (run ops) :=
  (guarded_foldl ops emptyDB inv_empty dbwf_empty h).1

/-- Witness for `balance_invariant_of_guarded` at a concrete guarded
sequence. -/
theorem balance_invariant_of_guarded_witness :
    GuardedFrom emptyDB [Op.upsert 1 none, Op.create 1 "5" none, Op.confirm 1] ∧
    Inv (run [Op.upsert 1 none, Op.create 1 "5" none, Op.confirm 1]) :=
  ⟨by with_unfolding_all decide,
   balance_invariant_of_guarded
     [Op.upsert 1 none, Op.create 1 "5" none, Op.confirm 1]
     (by with_unfolding_all decide)⟩

/-- After `confirm_all_user_transactions(u)` every transaction of `u` is
paid, and — when `paid → confirmed` held before — also confirmed. -/
theorem confirmAll_all_paid (uid : Int) (db : DB) (hpc : PaidConf db) :
    ∀ t ∈ (confirmAllUserTransactions uid db).txns, t.user_id = uid →
      t.paid = true ∧ t.transaction_confirmed = true := by
  intro t' ht' htu
  rcases List.mem_map.mp ht' with ⟨t, ht, rfl⟩
  have htuid : t.user_id = uid := by
    rw [← (payAllRow_fields uid t).2.1]
    exact htu
  by_cases hc : (t.user_id == uid && !t.paid) = true
  · constructor
    · unfold payAllRow
      rw [if_pos hc]
    · unfold payAllRow
      rw [if_pos hc]
  · have hbe : (t.user_id == uid) = true := by
      rw [htuid]
      exact beq_self_eq_true uid
    have hpaid : t.paid = true := by
      rcases Bool.eq_false_or_eq_true t.paid with hp | hp
      · exact hp
      · exact absurd (by rw [hbe, hp]; rfl) hc
    have hrow : payAllRow uid t = t := by
      unfold payAllRow
      rw [if_neg hc]
    rw [hrow]
    exact ⟨hpaid, hpc t ht hpaid⟩

/-! ### Claim C4: `confirm_all_user_transactions` is idempotent -/

/-- Claim C4, confirmed.  In every reachable store state, after one
`confirm_all_user_transactions(u)` call every transaction of `u` is paid
and confirmed, `u`'s `total_unpaid` is exactly 0 (assigned, not computed),
and a second immediate call is a no-op (the operation is idempotent as a
function on the store, so all of the above holds after it as well). -/
theorem confirm_all_idempotent (db : DB) (uid : Int) (h : Reachable db) :
    (∀ t ∈ (confirmAllUserTransactions uid db).txns, t.user_id = uid →
        t.paid = true ∧ t.transaction_confirmed = true) ∧
    balanceOf (confirmAllUserTransactions uid db) uid = 0 ∧
    confirmAllUserTransactions uid (confirmAllUserTransactions uid db) =
      confirmAllUserTransactions uid db := by
  have hpc : PaidConf db := reachable_paidconf h
  refine ⟨confirmAll_all_paid uid db hpc, ?_, ?_⟩
  · have hfind : ((confirmAllUserTransactions uid db).users.find?
        (fun u => u.user_id == uid)) =
        (db.users.find? (fun u => u.user_id == uid)).map (zeroBalRow uid) :=
      find?_map_pres (fun u => by unfold zeroBalRow; split <;> rfl) db.users
    unfold balanceOf findUser
    rw [hfind]
    cases h2 : db.users.find? (fun u => u.user_id == uid) with
    | none => rfl
    | some u =>
        have hp : (u.user_id == uid) = true :=
          @List.find?_some _ (fun u => u.user_id == uid) u db.users h2
        simp [zeroBalRow, hp]
  · have hf : ∀ t, payAllRow uid (payAllRow uid t) = payAllRow uid t := by
      intro t
      unfold payAllRow
      by_cases hc : (t.user_id == uid && !t.paid) = true
      · rw [if_pos hc]
        rw [if_neg]
        simp
      · rw [if_neg hc, if_neg hc]
    have hg : ∀ u, zeroBalRow uid (zeroBalRow uid u) = zeroBalRow uid u := by
      intro u
      unfold zeroBalRow
      by_cases hm : (u.user_id == uid) = true
      · simp [hm]
      · rw [if_neg hm, if_neg hm]
    cases db with
    | mk us ts n c =>
        simp only [confirmAllUserTransactions]
        rw [List.map_map, List.map_map]
        have h1 : List.map (payAllRow uid ∘ payAllRow uid) ts =
            List.map (payAllRow uid) ts :=
          List.map_congr_left (fun x _ => hf x)
        have h2 : List.map (zeroBalRow uid ∘ zeroBalRow uid) us =
            List.map (zeroBalRow uid) us :=
          List.map_congr_left (fun x _ => hg x)
        rw [h1, h2]

/-- Witness for `confirm_all_idempotent` at a concrete reachable store. -/
theorem confirm_all_idempotent_witness :
    (∀ t ∈ (confirmAllUserTransactions 1
        (run [Op.upsert 1 none, Op.create 1 "5" none])).txns, t.user_id = 1 →
        t.paid = true ∧ t.transaction_confirmed = true) ∧
    balanceOf (confirmAllUserTransactions 1
        (run [Op.upsert 1 none, Op.create 1 "5" none])) 1 = 0 ∧
    confirmAllUserTransactions 1 (confirmAllUserTransactions 1
        (run [Op.upsert 1 none, Op.create 1 "5" none])) =
      confirmAllUserTransactions 1 (run [Op.upsert 1 none, Op.create 1 "5" none]) :=
  confirm_all_idempotent (run [Op.upsert 1 none, Op.create 1 "5" none]) 1
    ⟨[Op.upsert 1 none, Op.create 1 "5" none], rfl⟩

/-! ### Claim C3: the price parser -/

theorem any_digit_filter (l : List Char) :
    (l.filter isPriceChar).any Char.isDigit = l.any Char.isDigit := by
  induction l with
  | nil => rfl
  | cons c cs ih =>
      by_cases hc : isPriceChar c = true
      · rw [List.filter_cons, if_pos hc, List.any_cons, List.any_cons, ih]
      · rw [List.filter_cons, if_neg hc, List.any_cons, ih]
        have hd : c.isDigit = false := by
          rcases Bool.eq_false_or_eq_true c.isDigit with h | h
          · exact absurd (by unfold isPriceChar; rw [h]; rfl) hc
          · exact h
        rw [hd, Bool.false_or]

theorem count_dot_filter (l : List Char) :
    (l.filter isPriceChar).count '.' = l.count '.' :=
  List.count_filter (by rfl)

/-- The success condition of the price parser, phrased on the raw input:
at most one dot and at least one ASCII digit. -/
theorem parse_cond_iff (s : String) :
    ((filterNumeric s).any Char.isDigit = true ∧ (filterNumeric s).count '.' ≤ 1) ↔
    (s.data.count '.' ≤ 1 ∧ s.data.any Char.isDigit = true) := by
  unfold filterNumeric
  rw [any_digit_filter, count_dot_filter]
  exact ⟨fun h => ⟨h.2, h.1⟩, fun h => ⟨h.2, h.1⟩⟩

/-- Claim C3, amended.  For every input string `s`: when `s` holds at most
one `'.'` and at least one ASCII digit, the digit-and-dot filtered
substring parses as a float and `_extract_numeric` returns exactly that
parsed value; otherwise the float parse of the filtered substring fails
(`ValueError`), and `_extract_numeric` catches it and returns `0.0` — it
never propagates the failure, so a string with zero digits yields `0.0`,
not an error. -/
theorem extract_numeric_spec (s : String) :
    (s.data.count '.' ≤ 1 ∧ s.data.any Char.isDigit = true →
      parseFloatNumeric (filterNumeric s) = some (extractNumeric s)) ∧
    (¬ (s.data.count '.' ≤ 1 ∧ s.data.any Char.isDigit = true) →
      parseFloatNumeric (filterNumeric s) = none ∧ extractNumeric s = 0) := by
  constructor
  · intro h
    have hcond : (filterNumeric s).any Char.isDigit = true ∧
        (filterNumeric s).count '.' ≤ 1 := (parse_cond_iff s).mpr h
    have hp : parseFloatNumeric (filterNumeric s) =
        some ((parseDigits ((filterNumeric s).takeWhile (fun c => c != '.')) : ℚ) +
          (parseDigits (((filterNumeric s).dropWhile (fun c => c != '.')).drop 1) : ℚ) /
            ((10 : ℚ) ^ (((filterNumeric s).dropWhile (fun c => c != '.')).drop 1).length)) := by
      unfold parseFloatNumeric
      rw [if_pos hcond]
    rw [hp]
    unfold extractNumeric
    rw [hp]
  · intro h
    have hcond : ¬ ((filterNumeric s).any Char.isDigit = true ∧
        (filterNumeric s).count '.' ≤ 1) := fun hc => h ((parse_cond_iff s).mp hc)
    have hp : parseFloatNumeric (filterNumeric s) = none := by
      unfold parseFloatNumeric
      rw [if_neg hcond]
    refine ⟨hp, ?_⟩
    unfold extractNumeric
    rw [hp]

/-- Claim C3, counterexample to the claim as stated.  On `"abc"` (no
digits) and on `"1.2.3"` (two decimal points) the float parse of the
filtered substring fails, yet `_extract_numeric` returns the value `0.0`
instead of failing with a `ValueError`-kind error. -/
theorem extract_numeric_counterexample :
    parseFloatNumeric (filterNumeric "abc") = none ∧ extractNumeric "abc" = 0 ∧
    parseFloatNumeric (filterNumeric "1.2.3") = none ∧ extractNumeric "1.2.3" = 0 := by
  with_unfolding_all decide

/-- Witness for `extract_numeric_spec` at `"55.000 VND"`. -/
theorem extract_numeric_spec_witness :
    parseFloatNumeric (filterNumeric "55.000 VND") =
      some (extractNumeric "55.000 VND") ∧
    extractNumeric "55.000 VND" = 55 :=
  ⟨(extract_numeric_spec "55.000 VND").1 (by with_unfolding_all decide),
   by with_unfolding_all decide⟩

/-! ### Claim C2: creating a transaction -/

theorem extractNumeric_of_parse {s : String} {v : ℚ}
    (h : parseFloatNumeric (filterNumeric s) = some v) : extractNumeric s = v := by
  unfold extractNumeric
  rw [h]

/-- Full characterisation of `increment_commentation_with_price`: it
returns the fresh transaction id, appends exactly one new row (unpaid,
unconfirmed, `total_price = _extract_numeric(price)`, `commented_count =
1`), bumps the id counter, stamps the clock, adds the amount to the
target's balance and touches no other user. -/
theorem increment_char (uid : Int) (price : String) (desc : Option String)
    (db : DB) :
    (incrementCommentationWithPrice uid price desc db).2 = db.nextId ∧
    (incrementCommentationWithPrice uid price desc db).1.txns =
      db.txns ++ [⟨db.nextId, uid, 1, price, extractNumeric price, none, false,
                   db.clock, false, none, desc⟩] ∧
    (incrementCommentationWithPrice uid price desc db).1.nextId = db.nextId + 1 ∧
    (incrementCommentationWithPrice uid price desc db).1.clock = db.clock + 1 ∧
    balanceOf (incrementCommentationWithPrice uid price desc db).1 uid =
      balanceOf db uid + extractNumeric price ∧
    (∀ uid', uid' ≠ uid →
      findUser (incrementCommentationWithPrice uid price desc db).1 uid' =
        findUser db uid') := by
  by_cases hex : (findUser db uid).isSome = true
  · refine ⟨by simp [incrementCommentationWithPrice, hex],
      by simp [incrementCommentationWithPrice, hex],
      by simp [incrementCommentationWithPrice, hex],
      by simp [incrementCommentationWithPrice, hex], ?_, ?_⟩
    · have hshape : (incrementCommentationWithPrice uid price desc db).1.users =
          db.users.map (addBalRow uid (extractNumeric price)) := by
        simp [incrementCommentationWithPrice, hex]
      unfold balanceOf findUser
      rw [hshape, find?_map_pres (fun u => by rw [addBalRow_uid]) db.users]
      cases hfu : db.users.find? (fun u => u.user_id == uid) with
      | none =>
          exact absurd hex (by unfold findUser; rw [hfu]; simp)
      | some u =>
          have hp : (u.user_id == uid) = true :=
            @List.find?_some _ (fun u => u.user_id == uid) u db.users hfu
          simp [addBalRow, hp]
    · intro uid' hne
      have hshape : (incrementCommentationWithPrice uid price desc db).1.users =
          db.users.map (addBalRow uid (extractNumeric price)) := by
        simp [incrementCommentationWithPrice, hex]
      unfold findUser
      rw [hshape, find?_map_pres (fun u => by rw [addBalRow_uid]) db.users]
      cases hfu : db.users.find? (fun u => u.user_id == uid') with
      | none => rfl
      | some u =>
          have hp : (u.user_id == uid') = true :=
            @List.find?_some _ (fun u => u.user_id == uid') u db.users hfu
          have hne2 : (u.user_id == uid) = false := by
            rw [eq_of_beq hp]
            rcases Bool.eq_false_or_eq_true (uid' == uid) with h' | h'
            · exact absurd (eq_of_beq h') hne
            · exact h'
          simp [addBalRow, hne2]
  · have hnone : db.users.find? (fun u => u.user_id == uid) = none := by
      cases hfu : db.users.find? (fun u => u.user_id == uid) with
      | none => rfl
      | some u => exact absurd (by unfold findUser; rw [hfu]; rfl) hex
    refine ⟨by simp [incrementCommentationWithPrice, hex],
      by simp [incrementCommentationWithPrice, hex],
      by simp [incrementCommentationWithPrice, hex],
      by simp [incrementCommentationWithPrice, hex], ?_, ?_⟩
    · have hshape : (incrementCommentationWithPrice uid price desc db).1.users =
          (db.users ++ [(⟨uid, none, 0⟩ : UserRow)]).map
            (addBalRow uid (extractNumeric price)) := by
        simp [incrementCommentationWithPrice, hex]
      unfold balanceOf findUser
      rw [hshape, find?_map_pres (fun u => by rw [addBalRow_uid]) _,
        List.find?_append, hnone]
      have hfresh : List.find? (fun u => u.user_id == uid)
          [(⟨uid, none, 0⟩ : UserRow)] = some ⟨uid, none, 0⟩ := by
        simp [List.find?]
      rw [hfresh]
      simp [addBalRow]
    · intro uid' hne
      have hshape : (incrementCommentationWithPrice uid price desc db).1.users =
          (db.users ++ [(⟨uid, none, 0⟩ : UserRow)]).map
            (addBalRow uid (extractNumeric price)) := by
        simp [incrementCommentationWithPrice, hex]
      unfold findUser
      rw [hshape, find?_map_pres (fun u => by rw [addBalRow_uid]) _,
        List.find?_append]
      have hne3 : (uid == uid') = false := by
        rcases Bool.eq_false_or_eq_true (uid == uid') with h' | h'
        · exact absurd (eq_of_beq h').symm hne
        · exact h'
      have hfresh : List.find? (fun u => u.user_id == uid')
          [(⟨uid, none, 0⟩ : UserRow)] = none := by
        simp [List.find?, hne3]
      rw [hfresh]
      cases hfu : db.users.find? (fun u => u.user_id == uid') with
      | none => rfl
      | some u =>
          have hp : (u.user_id == uid') = true :=
            @List.find?_some _ (fun u => u.user_id == uid') u db.users hfu
          have hne2 : (u.user_id == uid) = false := by
            rw [eq_of_beq hp]
            rcases Bool.eq_false_or_eq_true (uid' == uid) with h' | h'
            · exact absurd (eq_of_beq h') hne
            · exact h'
          simp [addBalRow, hne2]

/-- Claim C2, confirmed.  For every store state, user id and price string
whose digit-and-dot filtered form parses as the float `v`, creating a
transaction appends exactly one new row with `total_price = v`,
`paid = false` and `transaction_confirmed = false`, returns its fresh id,
adds exactly `v` to that user's `total_unpaid`, and leaves every other
user row untouched.  The whole operation is a single state transformer
(one SQL transaction), so the row and the balance increment appear
together or not at all. -/
theorem create_transaction_spec (db : DB) (uid : Int) (price : String)
    (desc : Option String) (v : ℚ)
    (hp : parseFloatNumeric (filterNumeric price) = some v) :
    (incrementCommentationWithPrice uid price desc db).1.txns =
      db.txns ++ [⟨db.nextId, uid, 1, price, v, none, false, db.clock,
                   false, none, desc⟩] ∧
    (incrementCommentationWithPrice uid price desc db).2 = db.nextId ∧
    balanceOf (incrementCommentationWithPrice uid price desc db).1 uid =
      balanceOf db uid + v ∧
    (∀ uid', uid' ≠ uid →
      findUser (incrementCommentationWithPrice uid price desc db).1 uid' =
        findUser db uid') := by
  have hv := extractNumeric_of_parse hp
  have h := increment_char uid price desc db
  rw [hv] at h
  exact ⟨h.2.1, h.1, h.2.2.2.2.1, h.2.2.2.2.2⟩

/-- Witness for `create_transaction_spec`: charging `"55.000 VND"` on the
fresh store yields `total_price = 55` and increments the balance by
exactly 55. -/
theorem create_transaction_spec_witness :
    (incrementCommentationWithPrice 7 "55.000 VND" none emptyDB).1.txns =
      [⟨1, 7, 1, "55.000 VND", 55, none, false, 0, false, none, none⟩] ∧
    (incrementCommentationWithPrice 7 "55.000 VND" none emptyDB).2 = 1 ∧
    balanceOf (incrementCommentationWithPrice 7 "55.000 VND" none emptyDB).1 7 =
      0 + 55 ∧
    (∀ uid', uid' ≠ 7 →
      findUser (incrementCommentationWithPrice 7 "55.000 VND" none emptyDB).1 uid' =
        findUser emptyDB uid') := by
  with_unfolding_all
    exact create_transaction_spec emptyDB 7 "55.000 VND" none 55
      (by with_unfolding_all decide)

/-! ### Claim C10: `add_or_get_user` on an existing user -/

/-- Claim C10, confirmed.  For a user already present in the store: calling
`add_or_get_user` with no username returns `None` (the conflicting
`INSERT .. DO NOTHING` yields no row) and leaves the store — in particular
the stored username and `total_unpaid` — completely unchanged; calling it
with a username returns the supplied username (not the previous one), the
supplied username becomes the stored one with `total_unpaid` untouched,
other users' rows keep their value, and the transactions table is not
written. -/
theorem add_or_get_user_spec (db : DB) (uid : Int) (u : UserRow)
    (hu : findUser db uid = some u) :
    addOrGetUser uid none db = (db, none) ∧
    (∀ un : String,
      (addOrGetUser uid (some un) db).2 = some un ∧
      findUser (addOrGetUser uid (some un) db).1 uid =
        some { u with username := some un } ∧
      (∀ uid', uid' ≠ uid →
        findUser (addOrGetUser uid (some un) db).1 uid' = findUser db uid') ∧
      (addOrGetUser uid (some un) db).1.txns = db.txns) := by
  have hu' : db.users.find? (fun x => x.user_id == uid) = some u := hu
  have hex : (findUser db uid).isSome = true := by rw [hu]; rfl
  have hp : (u.user_id == uid) = true :=
    @List.find?_some _ (fun x => x.user_id == uid) u db.users hu'
  refine ⟨by simp [addOrGetUser, hex], ?_⟩
  intro un
  have hshape : (addOrGetUser uid (some un) db).1.users =
      db.users.map (setNameRow uid un) := by
    simp [addOrGetUser, hex]
  refine ⟨by simp [addOrGetUser, hex], ?_, ?_, by simp [addOrGetUser, hex]⟩
  · unfold findUser
    rw [hshape, find?_map_pres (fun x => by rw [setNameRow_uid]) db.users]
    rw [show db.users.find? (fun x => x.user_id == uid) = some u from hu]
    simp [setNameRow, hp]
  · intro uid' hne
    unfold findUser
    rw [hshape, find?_map_pres (fun x => by rw [setNameRow_uid]) db.users]
    cases hfu : db.users.find? (fun x => x.user_id == uid') with
    | none => rfl
    | some w =>
        have hpw : (w.user_id == uid') = true :=
          @List.find?_some _ (fun x => x.user_id == uid') w db.users hfu
        have hne2 : (w.user_id == uid) = false := by
          rw [eq_of_beq hpw]
          rcases Bool.eq_false_or_eq_true (uid' == uid) with h' | h'
          · exact absurd (eq_of_beq h') hne
          · exact h'
        simp [setNameRow, hne2]

/-- Witness for `add_or_get_user_spec`: user 3 exists with username
`"alice"`; the bare upsert returns `None` and changes nothing, and the
upsert with `"bob"` returns `"bob"` and overwrites the stored username. -/
theorem add_or_get_user_spec_witness :
    addOrGetUser 3 none (run [Op.upsert 3 (some "alice")]) =
      (run [Op.upsert 3 (some "alice")], none) ∧
    (addOrGetUser 3 (some "bob") (run [Op.upsert 3 (some "alice")])).2 =
      some "bob" ∧
    findUser (addOrGetUser 3 (some "bob") (run [Op.upsert 3 (some "alice")])).1 3 =
      some ⟨3, some "bob", 0⟩ :=
  have h := add_or_get_user_spec (run [Op.upsert 3 (some "alice")]) 3
    ⟨3, some "alice", 0⟩ (by with_unfolding_all decide)
  ⟨h.1, (h.2 "bob").1, (h.2 "bob").2.1⟩

/-! ### Claim C5: `confirm_transaction` -/

/-- Effect of one `confirm_transaction` call on the target row and on its
owner's balance — with no case split on whether the row was already paid,
because the SQL has no `paid = FALSE` guard. -/
theorem confirm_char (db : DB) (tid : Nat) (t0 : TxnRow) (u : UserRow)
    (ht : findTxn db tid = some t0) (hu : findUser db t0.user_id = some u) :
    findTxn (confirmTransaction tid db) tid =
      some { t0 with transaction_confirmed := true, paid := true } ∧
    findUser (confirmTransaction tid db) t0.user_id =
      some { u with total_unpaid := u.total_unpaid - t0.total_price } := by
  have htx : (confirmTransaction tid db).txns = db.txns.map (payRow tid) := by
    simp [confirmTransaction, ht]
  have hus : (confirmTransaction tid db).users =
      db.users.map (subBalRow t0.user_id t0.total_price) := by
    simp [confirmTransaction, ht]
  have ht' : db.txns.find? (fun t => t.transaction_id == tid) = some t0 := ht
  have hu' : db.users.find? (fun x => x.user_id == t0.user_id) = some u := hu
  have hpt : (t0.transaction_id == tid) = true :=
    @List.find?_some _ (fun t => t.transaction_id == tid) t0 db.txns ht'
  have hpu : (u.user_id == t0.user_id) = true :=
    @List.find?_some _ (fun x => x.user_id == t0.user_id) u db.users hu'
  constructor
  · unfold findTxn
    rw [htx, find?_map_pres (fun t => by rw [(payRow_fields tid t).1]) db.txns]
    rw [show db.txns.find? (fun t => t.transaction_id == tid) = some t0 from ht]
    simp [payRow, hpt]
  · unfold findUser
    rw [hus, find?_map_pres (fun x => by rw [subBalRow_uid]) db.users]
    rw [show db.users.find? (fun x => x.user_id == t0.user_id) = some u from hu]
    simp [subBalRow, hpu]

/-- Claim C5, amended.  `confirm_transaction(t)` sets `transaction_confirmed`
and `paid` and decrements the owner's `total_unpaid` by `t.total_price` on
*every* invocation — also when `t` is already paid, because the `UPDATE`
carries no `WHERE paid = FALSE` guard.  It is not a silent no-op on a paid
transaction: calling it twice in a row decrements twice, leaving the
owner's balance at its original value minus `2 * total_price`. -/
theorem confirm_transaction_always_decrements (db : DB) (tid : Nat)
    (t0 : TxnRow) (u : UserRow)
    (ht : findTxn db tid = some t0) (hu : findUser db t0.user_id = some u) :
    findTxn (confirmTransaction tid db) tid =
      some { t0 with transaction_confirmed := true, paid := true } ∧
    findUser (confirmTransaction tid db) t0.user_id =
      some { u with total_unpaid := u.total_unpaid - t0.total_price } ∧
    balanceOf (confirmTransaction tid (confirmTransaction tid db)) t0.user_id =
      u.total_unpaid - 2 * t0.total_price := by
  have h1 := confirm_char db tid t0 u ht hu
  refine ⟨h1.1, h1.2, ?_⟩
  have ht1 : findTxn (confirmTransaction tid db) tid =
      some ({ t0 with transaction_confirmed := true, paid := true }) := h1.1
  have hu1 : findUser (confirmTransaction tid db)
      ({ t0 with transaction_confirmed := true, paid := true } : TxnRow).user_id =
      some ({ u with total_unpaid := u.total_unpaid - t0.total_price }) := h1.2
  have h2 := confirm_char (confirmTransaction tid db) tid _ _ ht1 hu1
  have h2' : findUser (confirmTransaction tid (confirmTransaction tid db))
      t0.user_id =
      some { u with total_unpaid :=
        u.total_unpaid - t0.total_price - t0.total_price } := h2.2
  unfold balanceOf
  rw [h2']
  show u.total_unpaid - t0.total_price - t0.total_price =
    u.total_unpaid - 2 * t0.total_price
  ring

/-- Claim C5, counterexample to the claim as stated.  With one unpaid
transaction of price 5, the first `confirm_transaction` brings the balance
to 0, and a second identical call — which the claim says is a silent
no-op — brings it to −5. -/
theorem confirm_transaction_double_decrement :
    balanceOf (confirmTransaction 1
      (run [Op.upsert 1 none, Op.create 1 "5" none])) 1 = 0 ∧
    balanceOf (confirmTransaction 1 (confirmTransaction 1
      (run [Op.upsert 1 none, Op.create 1 "5" none]))) 1 = -5 := by
  with_unfolding_all decide

/-- Witness for `confirm_transaction_always_decrements` at a concrete
store. -/
theorem confirm_transaction_always_decrements_witness :
    findTxn (confirmTransaction 1
        (run [Op.upsert 1 none, Op.create 1 "5" none])) 1 =
      some ⟨1, 1, 1, "5", 5, none, true, 0, true, none, none⟩ ∧
    findUser (confirmTransaction 1
        (run [Op.upsert 1 none, Op.create 1 "5" none])) 1 =
      some ⟨1, none, 0⟩ ∧
    balanceOf (confirmTransaction 1 (confirmTransaction 1
        (run [Op.upsert 1 none, Op.create 1 "5" none]))) 1 = -5 := by
  with_unfolding_all
    exact confirm_transaction_always_decrements
      (run [Op.upsert 1 none, Op.create 1 "5" none]) 1
      ⟨1, 1, 1, "5", 5, none, false, 0, false, none, none⟩ ⟨1, none, 5⟩
      (by with_unfolding_all decide) (by with_unfolding_all decide)

/-! ### Claims C6 and C7: proof submission and message-reference cleanup -/

theorem get_map_eq {α : Type} (f : α → α) (l : List α) (i : Nat)
    (h1 : i < l.length) (h2 : i < (l.map f).length) :
    (l.map f).get ⟨i, h2⟩ = f (l.get ⟨i, h1⟩) := by
  simp [List.get_eq_getElem, List.getElem_map]

theorem beq_false_of_ne {a b : Nat} (h : a ≠ b) : (a == b) = false := by
  rcases Bool.eq_false_or_eq_true (a == b) with h' | h'
  · exact absurd (eq_of_beq h') h
  · exact h'

/-- Claim C6, amended.  For every existing transaction `t` and URL,
`update_transaction` sets `transaction_image` to the URL, refreshes
`transaction_date` to the current time, and forces `paid = false` —
*leaving `transaction_confirmed` unchanged* (the `UPDATE` does not clear
it), and leaving `user_id`, `lunch_price`, `total_price`,
`ticket_message_id`, `description` (visible in the untouched fields of the
row equation), the whole user table, and every other transaction
unchanged. -/
theorem update_transaction_spec (db : DB) (tid : Nat) (url : String)
    (t : TxnRow) (ht : findTxn db tid = some t) :
    findTxn (updateTransaction tid url db) tid =
      some { t with transaction_image := some url,
                    transaction_date := db.clock, paid := false } ∧
    (updateTransaction tid url db).users = db.users ∧
    (updateTransaction tid url db).txns.length = db.txns.length ∧
    (∀ i (h1 : i < db.txns.length)
        (h2 : i < (updateTransaction tid url db).txns.length),
      (db.txns.get ⟨i, h1⟩).transaction_id ≠ tid →
      (updateTransaction tid url db).txns.get ⟨i, h2⟩ = db.txns.get ⟨i, h1⟩) := by
  have ht' : db.txns.find? (fun x => x.transaction_id == tid) = some t := ht
  have hpt : (t.transaction_id == tid) = true :=
    @List.find?_some _ (fun x => x.transaction_id == tid) t db.txns ht'
  refine ⟨?_, rfl, by simp [updateTransaction], ?_⟩
  · unfold findTxn
    have htx : (updateTransaction tid url db).txns =
        db.txns.map (proofRow tid url db.clock) := rfl
    rw [htx, find?_map_pres (fun x => by rw [(proofRow_fields tid url db.clock x).1])
      db.txns, ht']
    simp [proofRow, hpt]
  · intro i h1 h2 hne
    have hget : (updateTransaction tid url db).txns.get ⟨i, h2⟩ =
        proofRow tid url db.clock (db.txns.get ⟨i, h1⟩) :=
      get_map_eq (proofRow tid url db.clock) db.txns i h1 h2
    rw [hget]
    unfold proofRow
    rw [if_neg]
    rw [beq_false_of_ne hne]
    simp

/-- Claim C6, counterexample to the claim as stated.  Take a transaction
that has been confirmed (`transaction_confirmed = true`), then submit a
new proof for it: `update_transaction` leaves `transaction_confirmed`
at `true` — it does not clear it as the claim states. -/
theorem update_transaction_keeps_confirmed :
    (findTxn (updateTransaction 1 "proof.png"
        (run [Op.upsert 1 none, Op.create 1 "5" none, Op.confirm 1])) 1).map
      (fun t => t.transaction_confirmed) = some true ∧
    ¬ (findTxn (updateTransaction 1 "proof.png"
        (run [Op.upsert 1 none, Op.create 1 "5" none, Op.confirm 1])) 1).map
      (fun t => t.transaction_confirmed) = some false := by
  with_unfolding_all decide

/-- Witness for `update_transaction_spec` at a concrete store whose target
transaction is confirmed: the row keeps `transaction_confirmed = true`,
gets the image and the fresh date, and is forced back to `paid = false`. -/
theorem update_transaction_spec_witness :
    findTxn (updateTransaction 1 "proof.png"
        (run [Op.upsert 1 none, Op.create 1 "5" none, Op.confirm 1])) 1 =
      some ⟨1, 1, 1, "5", 5, some "proof.png", true, 1, false, none, none⟩ ∧
    (updateTransaction 1 "proof.png"
        (run [Op.upsert 1 none, Op.create 1 "5" none, Op.confirm 1])).users =
      (run [Op.upsert 1 none, Op.create 1 "5" none, Op.confirm 1]).users := by
  with_unfolding_all
    have h := update_transaction_spec
      (run [Op.upsert 1 none, Op.create 1 "5" none, Op.confirm 1]) 1 "proof.png"
      ⟨1, 1, 1, "5", 5, none, true, 0, true, none, none⟩
      (by with_unfolding_all decide)
    exact ⟨h.1, h.2.1⟩

/-- Claim C7, confirmed.  `clean_deleted_message_refs(M)` nulls
`ticket_message_id` on exactly the unpaid transactions whose
`ticket_message_id` is in `M`: paid transactions' references and unpaid
transactions referencing no member of `M` (including `NULL` references)
are left untouched, and the user table, id counter, clock and row count
are unchanged. -/
theorem clean_refs_spec (mids : List Int) (db : DB) :
    (cleanDeletedMessageRefs mids db).users = db.users ∧
    (cleanDeletedMessageRefs mids db).nextId = db.nextId ∧
    (cleanDeletedMessageRefs mids db).clock = db.clock ∧
    (cleanDeletedMessageRefs mids db).txns.length = db.txns.length ∧
    (∀ i (h1 : i < db.txns.length)
        (h2 : i < (cleanDeletedMessageRefs mids db).txns.length),
      ((db.txns.get ⟨i, h1⟩).paid = true →
        (cleanDeletedMessageRefs mids db).txns.get ⟨i, h2⟩ = db.txns.get ⟨i, h1⟩) ∧
      ((∀ m ∈ mids, (db.txns.get ⟨i, h1⟩).ticket_message_id ≠ some m) →
        (cleanDeletedMessageRefs mids db).txns.get ⟨i, h2⟩ = db.txns.get ⟨i, h1⟩) ∧
      ((db.txns.get ⟨i, h1⟩).paid = false →
        (∃ m ∈ mids, (db.txns.get ⟨i, h1⟩).ticket_message_id = some m) →
        (cleanDeletedMessageRefs mids db).txns.get ⟨i, h2⟩ =
          { db.txns.get ⟨i, h1⟩ with ticket_message_id := none })) := by
  refine ⟨rfl, rfl, rfl, by simp [cleanDeletedMessageRefs], ?_⟩
  intro i h1 h2
  have hget : (cleanDeletedMessageRefs mids db).txns.get ⟨i, h2⟩ =
      cleanRow mids (db.txns.get ⟨i, h1⟩) :=
    get_map_eq (cleanRow mids) db.txns i h1 h2
  refine ⟨?_, ?_, ?_⟩
  · intro hp
    rw [hget]
    unfold cleanRow
    rw [hp]
    simp
  · intro hm
    rw [hget]
    unfold cleanRow
    have hcond : ((match (db.txns.get ⟨i, h1⟩).ticket_message_id with
        | some m => mids.contains m
        | none => false) && !(db.txns.get ⟨i, h1⟩).paid) = false := by
      cases hmid : (db.txns.get ⟨i, h1⟩).ticket_message_id with
      | none =>
          show (false && !(db.txns.get ⟨i, h1⟩).paid) = false
          rw [Bool.false_and]
      | some m =>
          have hnm : m ∉ mids := fun hmem => hm m hmem (by rw [hmid])
          have hcon : mids.contains m = false := by
            rcases Bool.eq_false_or_eq_true (mids.contains m) with h' | h'
            · exact absurd (List.mem_of_elem_eq_true h') hnm
            · exact h'
          show (mids.contains m && !(db.txns.get ⟨i, h1⟩).paid) = false
          rw [hcon, Bool.false_and]
    have hcond' : ¬ (((match (db.txns.get ⟨i, h1⟩).ticket_message_id with
        | some m => mids.contains m
        | none => false) && !(db.txns.get ⟨i, h1⟩).paid) = true) := by
      rw [hcond]
      simp
    rw [if_neg hcond']
  · intro hp hex
    rcases hex with ⟨m, hmem, hmid⟩
    rw [hget]
    unfold cleanRow
    have hcond : ((match (db.txns.get ⟨i, h1⟩).ticket_message_id with
        | some m => mids.contains m
        | none => false) && !(db.txns.get ⟨i, h1⟩).paid) = true := by
      rw [hmid, hp]
      show (mids.contains m && !false) = true
      rw [Bool.not_false, Bool.and_true]
      exact List.elem_eq_true_of_mem hmem
    rw [if_pos hcond]

/-- Witness for `clean_refs_spec` at a concrete store with one paid
referencing row, one unpaid referencing row and one unpaid
non-referencing row. -/
theorem clean_refs_spec_witness :
    (cleanDeletedMessageRefs [10, 20]
      (run [Op.upsert 1 none, Op.create 1 "5" none, Op.setTicket 1 10,
            Op.create 1 "7" none, Op.setTicket 2 20, Op.confirm 2])).users =
      (run [Op.upsert 1 none, Op.create 1 "5" none, Op.setTicket 1 10,
            Op.create 1 "7" none, Op.setTicket 2 20, Op.confirm 2]).users ∧
    (cleanDeletedMessageRefs [10, 20]
      (run [Op.upsert 1 none, Op.create 1 "5" none, Op.setTicket 1 10,
            Op.create 1 "7" none, Op.setTicket 2 20, Op.confirm 2])).txns.map
      (fun t => t.ticket_message_id) = [none, some 20] := by
  constructor
  · exact (clean_refs_spec [10, 20] _).1
  · with_unfolding_all decide

/-! ### Claim C8: the payment handshake -/

/-- Claim C8, amended.  A successful Submit Proof transition (invoked by
the bound user with a pending image) followed by a successful Verify
transition (invoked with elevated permissions) leaves every transaction of
the bound user at `paid = true` with `transaction_confirmed = true`; the
submit button is disabled by the submit step, but the verify handler does
*not* disable the buttons or stop the view — the control never enters a
`CLOSED` state.  Instead it deletes every previously existing bot-authored
channel message, the control's host ticket message included, so the
handshake stops being reachable through the channel. -/
theorem handshake_submit_verify_spec (w : World) (url : String)
    (himg : lookupImage w.images w.view.boundUser = some url)
    (hpc : PaidConf w.db)
    (hfresh : ∀ m ∈ w.msgs, m.msgId < w.nextMsgId) :
    (∀ t ∈ (verifyPayment true (submitPayment w.view.boundUser w)).db.txns,
        t.user_id = w.view.boundUser →
        t.paid = true ∧ t.transaction_confirmed = true) ∧
    (verifyPayment true (submitPayment w.view.boundUser w)).view.submitDisabled =
      true ∧
    (verifyPayment true (submitPayment w.view.boundUser w)).view.verifyDisabled =
      w.view.verifyDisabled ∧
    (verifyPayment true (submitPayment w.view.boundUser w)).view.stopped =
      w.view.stopped ∧
    (∀ m ∈ w.msgs, m.botAuthored = true →
      m ∉ (verifyPayment true (submitPayment w.view.boundUser w)).msgs) := by
  have hw1 : submitPayment w.view.boundUser w =
      { db := updateTransaction w.view.transactionId url w.db,
        msgs := (w.msgs.filter (fun m =>
            !(m.botAuthored && strHasSub m.content "Payment proof submitted")))
          ++ [⟨w.nextMsgId, true,
               "Payment proof submitted by @user\nAdmin @admin please verify."⟩],
        images := w.images.filter (fun p => p.1 != w.view.boundUser),
        view := { w.view with submitDisabled := true },
        nextMsgId := w.nextMsgId + 1 } := by
    unfold submitPayment
    rw [bne_self_eq_false]
    simp [himg]
  have hw2 : verifyPayment true (submitPayment w.view.boundUser w) =
      { db := confirmAllUserTransactions w.view.boundUser
          (updateTransaction w.view.transactionId url w.db),
        msgs := ((submitPayment w.view.boundUser w).msgs.filter
            (fun m => !m.botAuthored))
          ++ [⟨w.nextMsgId + 1, true, "All payments for @user verified by @admin"⟩],
        images := (submitPayment w.view.boundUser w).images,
        view := { w.view with submitDisabled := true },
        nextMsgId := w.nextMsgId + 1 + 1 } := by
    rw [hw1]
    rfl
  rw [hw2]
  have hpc1 : PaidConf (updateTransaction w.view.transactionId url w.db) :=
    paidconf_step (Op.updateProof w.view.transactionId url) w.db hpc
  refine ⟨confirmAll_all_paid w.view.boundUser _ hpc1, rfl, rfl, rfl, ?_⟩
  intro m hm hbot hmem
  rcases List.mem_append.mp hmem with h' | h'
  · have := (List.mem_filter.mp h').2
    rw [hbot] at this
    simp at this
  · have hid : m.msgId = w.nextMsgId + 1 := by
      have : m = ⟨w.nextMsgId + 1, true, "All payments for @user verified by @admin"⟩ := by
        simpa using h'
      rw [this]
    have hlt := hfresh m hm
    rw [hid] at hlt
    exact absurd hlt (by simp)

/-- Claim C8, counterexample to the claim as stated.  On a concrete
handshake world — one unpaid transaction, the bot-authored ticket message
hosting the control, a pending image — Submit Proof then Verify leaves the
transaction `paid = true, transaction_confirmed = true`, but the control
is *not* in a terminal CLOSED state: the verify button is still enabled
and the view is not stopped. -/
theorem verify_leaves_control_open :
    (findTxn (verifyPayment true (submitPayment 1
        ⟨run [Op.upsert 1 none, Op.create 1 "55.000 VND" none],
         [⟨1, true, "Lunch Payment Details"⟩], [(1, "proof.png")],
         ⟨1, 1, false, false, false⟩, 2⟩)).db 1).map
      (fun t => (t.paid, t.transaction_confirmed)) = some (true, true) ∧
    (verifyPayment true (submitPayment 1
        ⟨run [Op.upsert 1 none, Op.create 1 "55.000 VND" none],
         [⟨1, true, "Lunch Payment Details"⟩], [(1, "proof.png")],
         ⟨1, 1, false, false, false⟩, 2⟩)).view.verifyDisabled = false ∧
    (verifyPayment true (submitPayment 1
        ⟨run [Op.upsert 1 none, Op.create 1 "55.000 VND" none],
         [⟨1, true, "Lunch Payment Details"⟩], [(1, "proof.png")],
         ⟨1, 1, false, false, false⟩, 2⟩)).view.stopped = false := by
  with_unfolding_all decide

/-- Witness for `handshake_submit_verify_spec` at the same concrete
world. -/
theorem handshake_submit_verify_spec_witness :
    (verifyPayment true (submitPayment 1
        ⟨run [Op.upsert 1 none, Op.create 1 "55.000 VND" none],
         [⟨1, true, "Lunch Payment Details"⟩], [(1, "proof.png")],
         ⟨1, 1, false, false, false⟩, 2⟩)).view.submitDisabled = true ∧
    (verifyPayment true (submitPayment 1
        ⟨run [Op.upsert 1 none, Op.create 1 "55.000 VND" none],
         [⟨1, true, "Lunch Payment Details"⟩], [(1, "proof.png")],
         ⟨1, 1, false, false, false⟩, 2⟩)).view.verifyDisabled = false ∧
    (verifyPayment true (submitPayment 1
        ⟨run [Op.upsert 1 none, Op.create 1 "55.000 VND" none],
         [⟨1, true, "Lunch Payment Details"⟩], [(1, "proof.png")],
         ⟨1, 1, false, false, false⟩, 2⟩)).view.stopped = false := by
  with_unfolding_all
    have h := handshake_submit_verify_spec
      ⟨run [Op.upsert 1 none, Op.create 1 "55.000 VND" none],
       [⟨1, true, "Lunch Payment Details"⟩], [(1, "proof.png")],
       ⟨1, 1, false, false, false⟩, 2⟩ "proof.png"
      (by with_unfolding_all decide) (by with_unfolding_all decide)
      (by with_unfolding_all decide)
    exact ⟨h.2.1, h.2.2.1, h.2.2.2.1⟩

/-! ### Claim C9: the multi-user `lunch` command -/

theorem upsert_txns (uid : Int) (un : Option String) (db : DB) :
    (addOrGetUser uid un db).1.txns = db.txns ∧
    (addOrGetUser uid un db).1.nextId = db.nextId ∧
    (addOrGetUser uid un db).1.clock = db.clock := by
  cases un <;> by_cases hex : (findUser db uid).isSome = true <;>
    simp [addOrGetUser, hex]

theorem balanceOf_append_zero (db : DB) (uid : Int) (un : Option String)
    (uid' : Int) :
    balanceOf { db with users := db.users ++ [⟨uid, un, 0⟩] } uid' =
      balanceOf db uid' := by
  unfold balanceOf findUser
  show (Option.map (fun u : UserRow => u.total_unpaid)
      ((db.users ++ [(⟨uid, un, 0⟩ : UserRow)]).find?
        (fun u => u.user_id == uid'))).getD 0 = _
  rw [List.find?_append]
  cases hfu : db.users.find? (fun u => u.user_id == uid') with
  | some w => rfl
  | none =>
      by_cases hq : (uid == uid') = true
      · have hf : List.find? (fun u => u.user_id == uid')
            [(⟨uid, un, 0⟩ : UserRow)] = some ⟨uid, un, 0⟩ := by
          simp [List.find?, hq]
        rw [hf]
        rfl
      · have hf : List.find? (fun u => u.user_id == uid')
            [(⟨uid, un, 0⟩ : UserRow)] = none := by
          simp [List.find?, hq]
        rw [hf]
        rfl

/-- Operation `add_or_get_user` never changes any balance. -/
theorem upsert_balance (uid : Int) (un : Option String) (db : DB) (uid' : Int) :
    balanceOf (addOrGetUser uid un db).1 uid' = balanceOf db uid' := by
  cases un with
  | none =>
      by_cases hex : (findUser db uid).isSome = true
      · simp [addOrGetUser, hex]
      · have hshape : (addOrGetUser uid none db).1 =
            { db with users := db.users ++ [(⟨uid, none, 0⟩ : UserRow)] } := by
          simp [addOrGetUser, hex]
        rw [hshape]
        exact balanceOf_append_zero db uid none uid'
  | some un =>
      by_cases hex : (findUser db uid).isSome = true
      · have hshape : (addOrGetUser uid (some un) db).1.users =
            db.users.map (setNameRow uid un) := by
          simp [addOrGetUser, hex]
        unfold balanceOf findUser
        rw [hshape, find?_map_pres (fun x => by rw [setNameRow_uid]) db.users]
        cases hfu : db.users.find? (fun u => u.user_id == uid') with
        | none => rfl
        | some w => simp [setNameRow_bal]
      · have hshape : (addOrGetUser uid (some un) db).1 =
            { db with users := db.users ++ [(⟨uid, some un, 0⟩ : UserRow)] } := by
          simp [addOrGetUser, hex]
        rw [hshape]
        exact balanceOf_append_zero db uid (some un) uid'

/-- One iteration of the `lunch` loop: regardless of whether the ticket
channel can be created, the user's transaction is committed — exactly one
new unpaid row with the parsed amount — and the balance rises by that
amount; only the success flag (and the ticket-message reference) depends
on the channel. -/
theorem processUser_char (env : ChargeEnv) (price : String) (db : DB)
    (uid : Int) (uname : String)
    (hwf : ∀ t ∈ db.txns, t.transaction_id < db.nextId) :
    ∃ row : TxnRow,
      (processUser env price db uid uname).1.txns = db.txns ++ [row] ∧
      row.transaction_id = db.nextId ∧
      row.user_id = uid ∧
      row.total_price = extractNumeric price ∧
      row.paid = false ∧
      (processUser env price db uid uname).1.nextId = db.nextId + 1 ∧
      balanceOf (processUser env price db uid uname).1 uid =
        balanceOf db uid + extractNumeric price ∧
      (∀ uid', uid' ≠ uid →
        balanceOf (processUser env price db uid uname).1 uid' =
          balanceOf db uid') ∧
      (processUser env price db uid uname).2 = env.channelOk uid := by
  have hA := upsert_txns uid (some uname) db
  have hinc := increment_char uid price none (addOrGetUser uid (some uname) db).1
  have hItxns : (incrementCommentationWithPrice uid price none
      (addOrGetUser uid (some uname) db).1).1.txns =
      db.txns ++ [⟨db.nextId, uid, 1, price, extractNumeric price, none, false,
                   db.clock, false, none, none⟩] := by
    rw [hinc.2.1, hA.1, hA.2.1, hA.2.2]
  by_cases hch : env.channelOk uid = true
  · have hres : processUser env price db uid uname =
        (setTicketMessageId db.nextId (env.msgIdFor uid)
          (incrementCommentationWithPrice uid price none
            (addOrGetUser uid (some uname) db).1).1, true) := by
      simp [processUser, hch]
      rw [hinc.1, hA.2.1]
    refine ⟨⟨db.nextId, uid, 1, price, extractNumeric price, none, false,
        db.clock, false, some (env.msgIdFor uid), none⟩,
      ?_, rfl, rfl, rfl, rfl, ?_, ?_, ?_, ?_⟩
    · rw [hres]
      show ((incrementCommentationWithPrice uid price none
          (addOrGetUser uid (some uname) db).1).1.txns.map
        (ticketRow db.nextId (env.msgIdFor uid))) = _
      rw [hItxns, List.map_append]
      have hold : ∀ t ∈ db.txns,
          ticketRow db.nextId (env.msgIdFor uid) t = t := by
        intro t ht
        unfold ticketRow
        rw [if_neg]
        rw [beq_false_of_ne (Nat.ne_of_lt (hwf t ht))]
        simp
      rw [List.map_congr_left hold]
      have hone : List.map (ticketRow db.nextId (env.msgIdFor uid))
          [(⟨db.nextId, uid, 1, price, extractNumeric price, none, false,
             db.clock, false, none, none⟩ : TxnRow)] =
          [⟨db.nextId, uid, 1, price, extractNumeric price, none, false,
            db.clock, false, some (env.msgIdFor uid), none⟩] := by
        simp only [List.map_cons, List.map_nil]
        unfold ticketRow
        rw [if_pos (beq_self_eq_true db.nextId)]
      rw [hone]
      simp
    · rw [hres]
      show (incrementCommentationWithPrice uid price none
          (addOrGetUser uid (some uname) db).1).1.nextId = db.nextId + 1
      rw [hinc.2.2.1, hA.2.1]
    · rw [hres]
      have hb : balanceOf (setTicketMessageId db.nextId (env.msgIdFor uid)
          (incrementCommentationWithPrice uid price none
            (addOrGetUser uid (some uname) db).1).1) uid =
          balanceOf (incrementCommentationWithPrice uid price none
            (addOrGetUser uid (some uname) db).1).1 uid := rfl
      rw [hb, hinc.2.2.2.2.1, upsert_balance]
    · intro uid' hne
      rw [hres]
      have hb : balanceOf (setTicketMessageId db.nextId (env.msgIdFor uid)
          (incrementCommentationWithPrice uid price none
            (addOrGetUser uid (some uname) db).1).1) uid' =
          balanceOf (incrementCommentationWithPrice uid price none
            (addOrGetUser uid (some uname) db).1).1 uid' := rfl
      have hb2 : balanceOf (incrementCommentationWithPrice uid price none
          (addOrGetUser uid (some uname) db).1).1 uid' =
          balanceOf (addOrGetUser uid (some uname) db).1 uid' := by
        unfold balanceOf
        rw [hinc.2.2.2.2.2 uid' hne]
      rw [hb, hb2, upsert_balance]
    · rw [hres, hch]
  · have hres : processUser env price db uid uname =
        ((incrementCommentationWithPrice uid price none
          (addOrGetUser uid (some uname) db).1).1, false) := by
      simp [processUser, hch]
    have hchf : env.channelOk uid = false := by
      rcases Bool.eq_false_or_eq_true (env.channelOk uid) with h' | h'
      · exact absurd h' hch
      · exact h'
    refine ⟨⟨db.nextId, uid, 1, price, extractNumeric price, none, false,
        db.clock, false, none, none⟩,
      ?_, rfl, rfl, rfl, rfl, ?_, ?_, ?_, ?_⟩
    · rw [hres]
      exact hItxns
    · rw [hres]
      show (incrementCommentationWithPrice uid price none
          (addOrGetUser uid (some uname) db).1).1.nextId = db.nextId + 1
      rw [hinc.2.2.1, hA.2.1]
    · rw [hres]
      show balanceOf (incrementCommentationWithPrice uid price none
          (addOrGetUser uid (some uname) db).1).1 uid = _
      rw [hinc.2.2.2.2.1, upsert_balance]
    · intro uid' hne
      rw [hres]
      have hb2 : balanceOf (incrementCommentationWithPrice uid price none
          (addOrGetUser uid (some uname) db).1).1 uid' =
          balanceOf (addOrGetUser uid (some uname) db).1 uid' := by
        unfold balanceOf
        rw [hinc.2.2.2.2.2 uid' hne]
      show balanceOf (incrementCommentationWithPrice uid price none
          (addOrGetUser uid (some uname) db).1).1 uid' = _
      rw [hb2, upsert_balance]
    · rw [hres, hchf]

/-- Characterisation of the whole per-user loop: the report lists are
exactly the channel-success and channel-failure partitions of the input,
every mentioned user's transaction is committed with the parsed amount,
and every balance rises by amount × number of mentions. -/
theorem lunchLoop_char (env : ChargeEnv) (price : String) :
    ∀ (users : List (Int × String)) (db : DB),
      (∀ t ∈ db.txns, t.transaction_id < db.nextId) →
      ((lunchLoop env price db users).2.1 =
        (users.filter (fun p => env.channelOk p.1)).map (fun p => p.2)) ∧
      ((lunchLoop env price db users).2.2 =
        (users.filter (fun p => !env.channelOk p.1)).map
          (fun p => p.2 ++ " (Could not create ticket channel)")) ∧
      (∃ newTxns : List TxnRow,
        (lunchLoop env price db users).1.txns = db.txns ++ newTxns ∧
        (∀ t ∈ newTxns, t.user_id ∈ users.map Prod.fst ∧
          t.total_price = extractNumeric price ∧ t.paid = false)) ∧
      (∀ uid : Int, balanceOf (lunchLoop env price db users).1 uid =
        balanceOf db uid +
          ((users.map Prod.fst).count uid : ℚ) * extractNumeric price) ∧
      (∀ t ∈ (lunchLoop env price db users).1.txns,
        t.transaction_id < (lunchLoop env price db users).1.nextId) := by
  intro users
  induction users with
  | nil =>
      intro db hwf
      refine ⟨rfl, rfl, ⟨[], by simp [lunchLoop], by intro t ht; cases ht⟩, ?_, hwf⟩
      intro uid
      simp [lunchLoop]
  | cons p rest ih =>
      intro db hwf
      obtain ⟨uid, uname⟩ := p
      obtain ⟨row, hP1, hP2, hP3, hP4, hP5, hP6, hP7, hP8, hP9⟩ :=
        processUser_char env price db uid uname hwf
      have hwf1 : ∀ t ∈ (processUser env price db uid uname).1.txns,
          t.transaction_id < (processUser env price db uid uname).1.nextId := by
        intro t ht
        rw [hP1] at ht
        rw [hP6]
        rcases List.mem_append.mp ht with h' | h'
        · exact lt_trans (hwf t h') (Nat.lt_succ_self _)
        · have : t = row := by simpa using h'
          subst this
          rw [hP2]
          exact Nat.lt_succ_self _
      have ihh := ih (processUser env price db uid uname).1 hwf1
      by_cases hch : env.channelOk uid = true
      · have hloop : lunchLoop env price db ((uid, uname) :: rest) =
            ((lunchLoop env price (processUser env price db uid uname).1 rest).1,
             uname ::
               (lunchLoop env price (processUser env price db uid uname).1 rest).2.1,
             (lunchLoop env price (processUser env price db uid uname).1 rest).2.2) := by
          simp only [lunchLoop]
          rw [hP9.trans hch]
          simp
        rw [hloop]
        refine ⟨?_, ?_, ?_, ?_, ?_⟩
        · rw [List.filter_cons]
          simp only [hch, if_true, List.map_cons]
          rw [ihh.1]
        · rw [List.filter_cons]
          simp only [hch, Bool.not_true, if_neg (by simp : ¬ (false = true))]
          rw [ihh.2.1]
        · obtain ⟨newTxns, hnt, hprops⟩ := ihh.2.2.1
          refine ⟨row :: newTxns, ?_, ?_⟩
          · rw [hnt, hP1, List.append_assoc]
            rfl
          · intro t ht
            rcases List.mem_cons.mp ht with h' | h'
            · subst h'
              exact ⟨by rw [hP3]; exact List.mem_cons_self _ _, hP4, hP5⟩
            · obtain ⟨hm, hv, hpd⟩ := hprops t h'
              exact ⟨List.mem_cons_of_mem _ hm, hv, hpd⟩
        · intro u
          rw [ihh.2.2.2.1 u]
          by_cases hu : u = uid
          · subst hu
            rw [hP7]
            rw [show ((u, uname) :: rest).map Prod.fst = u :: rest.map Prod.fst
              from rfl, List.count_cons]
            simp only [beq_self_eq_true, if_true]
            push_cast
            ring
          · rw [hP8 u hu]
            rw [show ((uid, uname) :: rest).map Prod.fst = uid :: rest.map Prod.fst
              from rfl, List.count_cons]
            have hbe : (uid == u) = false := by
              rcases Bool.eq_false_or_eq_true (uid == u) with h' | h'
              · exact absurd (eq_of_beq h').symm hu
              · exact h'
            simp only [hbe, if_neg (by simp : ¬ (false = true))]
            push_cast
            ring
        · exact ihh.2.2.2.2
      · have hchf : env.channelOk uid = false := by
          rcases Bool.eq_false_or_eq_true (env.channelOk uid) with h' | h'
          · exact absurd h' hch
          · exact h'
        have hloop : lunchLoop env price db ((uid, uname) :: rest) =
            ((lunchLoop env price (processUser env price db uid uname).1 rest).1,
             (lunchLoop env price (processUser env price db uid uname).1 rest).2.1,
             (uname ++ " (Could not create ticket channel)") ::
               (lunchLoop env price (processUser env price db uid uname).1 rest).2.2) := by
          simp only [lunchLoop]
          rw [hP9.trans hchf]
          simp
        rw [hloop]
        refine ⟨?_, ?_, ?_, ?_, ?_⟩
        · rw [List.filter_cons]
          simp only [hchf, if_neg (by simp : ¬ (false = true))]
          rw [ihh.1]
        · rw [List.filter_cons]
          simp only [hchf, Bool.not_false, if_true, List.map_cons]
          rw [ihh.2.1]
        · obtain ⟨newTxns, hnt, hprops⟩ := ihh.2.2.1
          refine ⟨row :: newTxns, ?_, ?_⟩
          · rw [hnt, hP1, List.append_assoc]
            rfl
          · intro t ht
            rcases List.mem_cons.mp ht with h' | h'
            · subst h'
              exact ⟨by rw [hP3]; exact List.mem_cons_self _ _, hP4, hP5⟩
            · obtain ⟨hm, hv, hpd⟩ := hprops t h'
              exact ⟨List.mem_cons_of_mem _ hm, hv, hpd⟩
        · intro u
          rw [ihh.2.2.2.1 u]
          by_cases hu : u = uid
          · subst hu
            rw [hP7]
            rw [show ((u, uname) :: rest).map Prod.fst = u :: rest.map Prod.fst
              from rfl, List.count_cons]
            simp only [beq_self_eq_true, if_true]
            push_cast
            ring
          · rw [hP8 u hu]
            rw [show ((uid, uname) :: rest).map Prod.fst = uid :: rest.map Prod.fst
              from rfl, List.count_cons]
            have hbe : (uid == u) = false := by
              rcases Bool.eq_false_or_eq_true (uid == u) with h' | h'
              · exact absurd (eq_of_beq h').symm hu
              · exact h'
            simp only [hbe, if_neg (by simp : ¬ (false = true))]
            push_cast
            ring
        · exact ihh.2.2.2.2

/-- Claim C9, confirmed.  In the multi-user `lunch` command, after the
price validates, each mentioned user is processed independently: a
channel-creation failure for one user is caught and recorded and the
remaining users are still fully processed; the command reports exactly the
successfully processed users and the failed users with their reason; and
every mentioned user — the failed ones included, since the failure happens
after the commit point — keeps the committed transaction (one new unpaid
row with `total_price = v` per mention) and the balance increment
(`v` × number of mentions). -/
theorem lunch_per_user_isolation (env : ChargeEnv) (db : DB)
    (users : List (Int × String)) (price : String) (v : ℚ)
    (hp : parseFloatNumeric (filterNumeric price) = some v) (hv : 0 < v)
    (hne : users ≠ [])
    (hwf : ∀ t ∈ db.txns, t.transaction_id < db.nextId) :
    lunchCommand env db users price = some (lunchLoop env price db users) ∧
    (lunchLoop env price db users).2.1 =
      (users.filter (fun p => env.channelOk p.1)).map (fun p => p.2) ∧
    (lunchLoop env price db users).2.2 =
      (users.filter (fun p => !env.channelOk p.1)).map
        (fun p => p.2 ++ " (Could not create ticket channel)") ∧
    (∃ newTxns : List TxnRow,
      (lunchLoop env price db users).1.txns = db.txns ++ newTxns ∧
      (∀ t ∈ newTxns, t.user_id ∈ users.map Prod.fst ∧
        t.total_price = v ∧ t.paid = false)) ∧
    (∀ uid : Int, balanceOf (lunchLoop env price db users).1 uid =
      balanceOf db uid + ((users.map Prod.fst).count uid : ℚ) * v) := by
  have hvx : extractNumeric price = v := extractNumeric_of_parse hp
  have hL := lunchLoop_char env price users db hwf
  rw [hvx] at hL
  have hcmd : lunchCommand env db users price =
      some (lunchLoop env price db users) := by
    unfold lunchCommand
    have hie : users.isEmpty = false := by
      cases users with
      | nil => exact absurd rfl hne
      | cons a l => rfl
    rw [hie, hp]
    simp only [if_neg (by simp : ¬ (false = true))]
    rw [if_neg (not_le.mpr hv)]
  exact ⟨hcmd, hL.1, hL.2.1, hL.2.2.1, hL.2.2.2.1⟩

/-- Witness for `lunch_per_user_isolation`: three users charged
`"55.000 VND"`, channel creation fails for user 2; users 1 and 3 are
reported processed, user 2 is reported failed with the reason, and
user 2's balance still carries the committed 55. -/
theorem lunch_per_user_isolation_witness :
    lunchCommand ⟨fun uid => uid != 2, fun _ => 100⟩ emptyDB
        [(1, "a"), (2, "b"), (3, "c")] "55.000 VND" =
      some (lunchLoop ⟨fun uid => uid != 2, fun _ => 100⟩ "55.000 VND" emptyDB
        [(1, "a"), (2, "b"), (3, "c")]) ∧
    (lunchLoop ⟨fun uid => uid != 2, fun _ => 100⟩ "55.000 VND" emptyDB
        [(1, "a"), (2, "b"), (3, "c")]).2.1 = ["a", "c"] ∧
    (lunchLoop ⟨fun uid => uid != 2, fun _ => 100⟩ "55.000 VND" emptyDB
        [(1, "a"), (2, "b"), (3, "c")]).2.2 =
      ["b (Could not create ticket channel)"] ∧
    balanceOf (lunchLoop ⟨fun uid => uid != 2, fun _ => 100⟩ "55.000 VND" emptyDB
        [(1, "a"), (2, "b"), (3, "c")]).1 2 = 55 := by
  have h := lunch_per_user_isolation ⟨fun uid => uid != 2, fun _ => 100⟩ emptyDB
    [(1, "a"), (2, "b"), (3, "c")] "55.000 VND" 55
    (by with_unfolding_all decide) (by with_unfolding_all decide)
    (by exact List.cons_ne_nil _ _) (by intro t ht; cases ht)
  refine ⟨h.1, ?_, ?_, ?_⟩
  · rw [h.2.1]
    with_unfolding_all decide
  · rw [h.2.2.1]
    with_unfolding_all decide
  · with_unfolding_all decide

end LunchBot
